import Mathlib

/-!
Verification development for the fitness-backend repository
(`src/server.js`, an Express + SQLite REST backend).

The server stores opaque JSON documents as TEXT rows in SQLite: every
write stores `JSON.stringify(payload)` and every read applies
`JSON.parse(row.data)` (falling back to skipping or defaulting when the
parse throws).  This file embeds:

* `JVal` — JSON values as delivered by the server's JSON body parser.
  Numbers are modelled as integers: the repository's observed payloads
  are integer-valued and none of the checked claims depends on float
  formatting, so the embedding works in the integer-number fragment of
  JSON throughout (both in the serializer and in the parser).
* `jsonEmit` / `jsonStringify` — the output of `JSON.stringify`,
  including the string escapes `JSON.stringify` actually produces
  (quote, backslash, the short control escapes and the two-digit
  control escapes for other characters below 0x20).
* `jparse` — `JSON.parse` for that fragment, as a fuel-based recursive
  descent parser; `jparse s = none` models `JSON.parse(s)` throwing.
* the SQLite tables of `server.js` as lists of rows, with
  `INSERT OR REPLACE` modelled as delete-conflicting-rows-then-append,
  and each HTTP handler the claims mention as a state-passing function.
-/

/-! ## JSON values -/

/-- A JSON value, as produced by the server's JSON body parser
(`express.json()`), with numbers restricted to integers.  `obj` keeps
the field list in insertion order, matching JS object key order. -/
inductive JVal where
  | null
  | bool (b : Bool)
  | num (n : Int)
  | str (s : String)
  | arr (elems : List JVal)
  | obj (fields : List (String × JVal))

/-- The character `LEFT CURLY BRACKET`. -/
def lbraceChar : Char := Char.ofNat 123

/-- The character `RIGHT CURLY BRACKET`. -/
def rbraceChar : Char := Char.ofNat 125

/-! ## JSON.stringify -/

/-- Lower-case hexadecimal digit, as used by `JSON.stringify` in
`\u00xx` control-character escapes. -/
def hexDigitChar (n : Nat) : Char :=
  if n < 10 then Char.ofNat (48 + n) else Char.ofNat (87 + n)

/-- Escaping of a single character inside a JSON string literal,
exactly the set of escapes `JSON.stringify` emits: `\"`, `\\`, the
short escapes `\b \t \n \f \r`, and `\u00xx` for the remaining
control characters.  All other characters are emitted verbatim. -/
def escChar (c : Char) : List Char :=
  if c = '"' then ['\\', '"']
  else if c = '\\' then ['\\', '\\']
  else if c = Char.ofNat 8 then ['\\', 'b']
  else if c = Char.ofNat 9 then ['\\', 't']
  else if c = Char.ofNat 10 then ['\\', 'n']
  else if c = Char.ofNat 12 then ['\\', 'f']
  else if c = Char.ofNat 13 then ['\\', 'r']
  else if c.toNat < 32 then
    ['\\', 'u', '0', '0', hexDigitChar (c.toNat / 16), hexDigitChar (c.toNat % 16)]
  else [c]

/-- Escaping of a whole string body. -/
def escSeq : List Char → List Char
  | [] => []
  | c :: cs => escChar c ++ escSeq cs

/-- Decimal digit character. -/
def digitChar (d : Nat) : Char := Char.ofNat (48 + d)

/-- Decimal digits of a natural number, most significant first
(fuel-based so that it is structurally recursive; `natDigits` supplies
sufficient fuel). -/
def natDigitsAux : Nat → Nat → List Char
  | 0, _ => []
  | fuel + 1, n =>
    if n < 10 then [digitChar n]
    else natDigitsAux fuel (n / 10) ++ [digitChar (n % 10)]

/-- Decimal digits of a natural number. -/
def natDigits (n : Nat) : List Char := natDigitsAux (n + 1) n

/-- The characters `JSON.stringify` produces for an integer. -/
def intChars (n : Int) : List Char :=
  if n < 0 then '-' :: natDigits (-n).toNat else natDigits n.toNat

mutual

/-- The character sequence produced by `JSON.stringify` on a value. -/
def jsonEmit : JVal → List Char
  | .null => 'n' :: ['u', 'l', 'l']
  | .bool true => 't' :: ['r', 'u', 'e']
  | .bool false => 'f' :: ['a', 'l', 's', 'e']
  | .num n => intChars n
  | .str s => '"' :: (escSeq s.data ++ ['"'])
  | .arr l => '[' :: emitItems l
  | .obj l => lbraceChar :: emitFields l

/-- Array elements, comma separated, with the closing bracket. -/
def emitItems : List JVal → List Char
  | [] => [']']
  | [v] => jsonEmit v ++ [']']
  | v :: t => jsonEmit v ++ ',' :: emitItems t

/-- Object fields, comma separated, with the closing brace. -/
def emitFields : List (String × JVal) → List Char
  | [] => [rbraceChar]
  | [(k, v)] => '"' :: (escSeq k.data ++ '"' :: ':' :: (jsonEmit v ++ [rbraceChar]))
  | (k, v) :: t => '"' :: (escSeq k.data ++ '"' :: ':' :: (jsonEmit v ++ ',' :: emitFields t))

end

/-- Embedding of `JSON.stringify`. -/
def jsonStringify (v : JVal) : String := String.mk (jsonEmit v)

/-! ## JSON.parse -/

/-- Value of one hexadecimal digit (`JSON.parse` accepts both cases). -/
def hexVal (c : Char) : Option Nat :=
  if 48 ≤ c.toNat ∧ c.toNat ≤ 57 then some (c.toNat - 48)
  else if 97 ≤ c.toNat ∧ c.toNat ≤ 102 then some (c.toNat - 87)
  else if 65 ≤ c.toNat ∧ c.toNat ≤ 70 then some (c.toNat - 55)
  else none

/-- Decoding of a single-character escape inside a JSON string. -/
def unescChar (c : Char) : Option Char :=
  if c = '"' then some '"'
  else if c = '\\' then some '\\'
  else if c = '/' then some '/'
  else if c = 'b' then some (Char.ofNat 8)
  else if c = 'f' then some (Char.ofNat 12)
  else if c = 'n' then some (Char.ofNat 10)
  else if c = 'r' then some (Char.ofNat 13)
  else if c = 't' then some (Char.ofNat 9)
  else none

/-- String-literal body parser: input starts right after the opening
quote, returns the decoded characters and the input after the closing
quote.  Each step consumes at least one input character, so fuel
`input length + 1` always suffices. -/
def parseStrBody : Nat → List Char → Option (List Char × List Char)
  | 0, _ => none
  | _ + 1, [] => none
  | fuel + 1, c :: cs =>
    if c = '"' then some ([], cs)
    else if c = '\\' then
      match cs with
      | [] => none
      | e :: cs1 =>
        if e = 'u' then
          match cs1 with
          | h1 :: h2 :: h3 :: h4 :: cs2 =>
            match hexVal h1, hexVal h2, hexVal h3, hexVal h4 with
            | some a, some b, some c1, some d =>
              match parseStrBody fuel cs2 with
              | some (s, r) =>
                some (Char.ofNat (((a * 16 + b) * 16 + c1) * 16 + d) :: s, r)
              | none => none
            | _, _, _, _ => none
          | _ => none
        else
          match unescChar e with
          | some c1 =>
            match parseStrBody fuel cs1 with
            | some (s, r) => some (c1 :: s, r)
            | none => none
          | none => none
    else
      match parseStrBody fuel cs with
      | some (s, r) => some (c :: s, r)
      | none => none

/-- Value of a nonempty digit run, most significant first. -/
def digitsToNat (cs : List Char) : Nat :=
  cs.foldl (fun a c => a * 10 + (c.toNat - 48)) 0

/-- Parser for an unsigned decimal integer (maximal digit run). -/
def parseNatPart (s : List Char) : Option (Nat × List Char) :=
  let ds := s.takeWhile Char.isDigit
  if ds.isEmpty then none
  else some (digitsToNat ds, s.dropWhile Char.isDigit)

/-- Parser for a JSON integer (optional minus sign, digit run). -/
def parseIntPart (s : List Char) : Option (Int × List Char) :=
  if s.head? = some '-' then
    match parseNatPart s.tail with
    | some (n, r) => some (-(n : Int), r)
    | none => none
  else
    match parseNatPart s with
    | some (n, r) => some ((n : Int), r)
    | none => none

mutual

/-- Recursive descent JSON parser (integer-number fragment).  The fuel
only bounds the bracket-nesting recursion; string and number literals
are consumed by the non-recursive helpers above. -/
def parseVal : Nat → List Char → Option (JVal × List Char)
  | 0, _ => none
  | _ + 1, [] => none
  | fuel + 1, c :: cs =>
    if c = 'n' then
      match cs with
      | 'u' :: 'l' :: 'l' :: r => some (.null, r)
      | _ => none
    else if c = 't' then
      match cs with
      | 'r' :: 'u' :: 'e' :: r => some (.bool true, r)
      | _ => none
    else if c = 'f' then
      match cs with
      | 'a' :: 'l' :: 's' :: 'e' :: r => some (.bool false, r)
      | _ => none
    else if c = '"' then
      match parseStrBody (cs.length + 1) cs with
      | some (s, r) => some (.str (String.mk s), r)
      | none => none
    else if c = '[' then
      match parseItems fuel cs with
      | some (l, r) => some (.arr l, r)
      | none => none
    else if c = lbraceChar then
      match parseFields fuel cs with
      | some (l, r) => some (.obj l, r)
      | none => none
    else
      match parseIntPart (c :: cs) with
      | some (n, r) => some (.num n, r)
      | none => none

/-- Array tail parser: input starts right after `[` (or after a comma). -/
def parseItems : Nat → List Char → Option (List JVal × List Char)
  | 0, _ => none
  | _ + 1, [] => none
  | fuel + 1, c :: cs =>
    if c = ']' then some ([], cs)
    else
      match parseVal fuel (c :: cs) with
      | some (v, r) =>
        match r with
        | ',' :: r1 =>
          match parseItems fuel r1 with
          | some (l, r2) => some (v :: l, r2)
          | none => none
        | ']' :: r1 => some ([v], r1)
        | _ => none
      | none => none

/-- Object tail parser: input starts right after the opening brace (or
after a comma). -/
def parseFields : Nat → List Char → Option (List (String × JVal) × List Char)
  | 0, _ => none
  | _ + 1, [] => none
  | fuel + 1, c :: cs =>
    if c = rbraceChar then some ([], cs)
    else if c = '"' then
      match parseStrBody (cs.length + 1) cs with
      | some (k, r) =>
        match r with
        | ':' :: r1 =>
          match parseVal fuel r1 with
          | some (v, r2) =>
            match r2 with
            | d :: r3 =>
              if d = ',' then
                match parseFields fuel r3 with
                | some (l, r4) => some ((String.mk k, v) :: l, r4)
                | none => none
              else if d = rbraceChar then some ([(String.mk k, v)], r3)
              else none
            | [] => none
          | none => none
        | _ => none
      | none => none
    else none

end

/-- Embedding of `JSON.parse` (returns `none` where `JSON.parse`
throws).  The fuel `length + 1` dominates any possible bracket
nesting of the input. -/
def jparse (s : String) : Option JVal :=
  match parseVal (s.data.length + 1) s.data with
  | some (v, []) => some v
  | _ => none

/-! ## Round-trip of the serializer and parser

`JSON.parse(JSON.stringify(v))` recovers `v`; this is the contract the
server relies on for every stored document.  The proofs below go by
induction on the parser fuel. -/

theorem charToNat_ofNat {n : Nat} (h : n < 55296) : (Char.ofNat n).toNat = n := by
  have hv : n.isValidChar := Or.inl h
  simp [Char.ofNat, hv, Char.toNat, Char.ofNatAux, UInt32.toNat, BitVec.toNat_ofNatLt]

theorem hexVal_hexDigitChar {n : Nat} (h : n < 16) : hexVal (hexDigitChar n) = some n := by
  unfold hexDigitChar hexVal
  by_cases h10 : n < 10
  · rw [if_pos h10, charToNat_ofNat (by omega)]
    rw [if_pos (by omega)]
    exact congrArg some (by omega)
  · rw [if_neg h10, charToNat_ofNat (by omega)]
    rw [if_neg (by omega), if_pos (by omega)]
    exact congrArg some (by omega)

theorem escSeq_append (a b : List Char) : escSeq (a ++ b) = escSeq a ++ escSeq b := by
  induction a with
  | nil => simp [escSeq]
  | cons c cs ih => simp [escSeq, ih]

theorem length_le_escSeq (cs : List Char) : cs.length ≤ (escSeq cs).length := by
  induction cs with
  | nil => simp [escSeq]
  | cons c cs ih =>
    have : 0 < (escChar c).length := by
      unfold escChar
      split_ifs <;> simp
    simp only [escSeq, List.length_cons, List.length_append]
    omega

theorem parseStrBody_escSeq (cs : List Char) :
    ∀ (fuel : Nat) (rest : List Char), cs.length < fuel →
      parseStrBody fuel (escSeq cs ++ '"' :: rest) = some (cs, rest) := by
  induction cs with
  | nil =>
    intro fuel rest h
    obtain ⟨f, rfl⟩ : ∃ f, fuel = f + 1 := ⟨fuel - 1, by omega⟩
    simp [escSeq, parseStrBody]
  | cons c cs ih =>
    intro fuel rest h
    obtain ⟨f, rfl⟩ : ∃ f, fuel = f + 1 := ⟨fuel - 1, by omega⟩
    have hf : cs.length < f := by simpa using h
    simp only [escSeq, List.append_assoc]
    unfold escChar
    split_ifs with h1 h2 h3 h4 h5 h6 h7 h8
    · subst h1
      simp [parseStrBody, unescChar, ih f rest hf]
    · subst h2
      simp [parseStrBody, unescChar, ih f rest hf]
    · simp only [List.cons_append, List.nil_append]
      rw [h3]
      simp [parseStrBody, unescChar, ih f rest hf]
    · simp only [List.cons_append, List.nil_append]
      rw [h4]
      simp [parseStrBody, unescChar, ih f rest hf]
    · simp only [List.cons_append, List.nil_append]
      rw [h5]
      simp [parseStrBody, unescChar, ih f rest hf]
    · simp only [List.cons_append, List.nil_append]
      rw [h6]
      simp [parseStrBody, unescChar, ih f rest hf]
    · simp only [List.cons_append, List.nil_append]
      rw [h7]
      simp [parseStrBody, unescChar, ih f rest hf]
    · simp only [List.cons_append, List.nil_append]
      have hhi : hexVal (hexDigitChar (c.toNat / 16)) = some (c.toNat / 16) :=
        hexVal_hexDigitChar (by omega)
      have hlo : hexVal (hexDigitChar (c.toNat % 16)) = some (c.toNat % 16) :=
        hexVal_hexDigitChar (by omega)
      have h0 : hexVal '0' = some 0 := by decide
      simp only [parseStrBody, if_true, if_neg (show ¬ '\\' = '"' by decide),
        if_pos (show ('\\' : Char) = '\\' from rfl), if_pos (show ('u' : Char) = 'u' from rfl),
        h0, hhi, hlo, ih f rest hf]
      have hval : ((0 * 16 + 0) * 16 + c.toNat / 16) * 16 + c.toNat % 16 = c.toNat := by omega
      rw [hval, Char.ofNat_toNat]
    · simp only [List.cons_append, List.nil_append]
      simp only [parseStrBody]
      rw [if_neg h1, if_neg h2, ih f rest hf]

theorem isDigit_iff_toNat {c : Char} : c.isDigit = true ↔ 48 ≤ c.toNat ∧ c.toNat ≤ 57 := by
  simp [Char.isDigit, Char.le_def, Char.toNat, UInt32.le_def, UInt32.toNat, BitVec.le_def]

theorem digitChar_isDigit {d : Nat} (h : d < 10) : (digitChar d).isDigit = true := by
  rw [isDigit_iff_toNat]
  unfold digitChar
  rw [charToNat_ofNat (by omega)]
  omega

theorem digitChar_toNat {d : Nat} (h : d < 10) : (digitChar d).toNat = 48 + d := by
  unfold digitChar
  rw [charToNat_ofNat (by omega)]

theorem natDigitsAux_spec :
    ∀ (fuel n : Nat), n < fuel →
      natDigitsAux fuel n ≠ [] ∧ (natDigitsAux fuel n).all Char.isDigit = true ∧
        digitsToNat (natDigitsAux fuel n) = n := by
  intro fuel
  induction fuel with
  | zero => omega
  | succ f ih =>
    intro n hn
    by_cases h10 : n < 10
    · refine ⟨by simp [natDigitsAux, h10], ?_, ?_⟩
      · simp [natDigitsAux, h10, digitChar_isDigit h10]
      · simp [natDigitsAux, h10, digitsToNat, digitChar_toNat h10]
    · have hrec := ih (n / 10) (by omega)
      refine ⟨by simp [natDigitsAux, h10], ?_, ?_⟩
      · simp only [natDigitsAux, if_neg h10, List.all_append, Bool.and_eq_true]
        exact ⟨hrec.2.1, by simp [digitChar_isDigit (Nat.mod_lt n (by omega))]⟩
      · simp only [natDigitsAux, if_neg h10, digitsToNat, List.foldl_append]
        have := hrec.2.2
        unfold digitsToNat at this
        rw [this, List.foldl_cons, List.foldl_nil,
          digitChar_toNat (Nat.mod_lt n (by omega))]
        omega

/-- Head-of-remaining-input guard: the characters that can follow a
JSON number inside `JSON.stringify` output are never digits, so a
maximal-munch number parse stops exactly at the emitted boundary. -/
def noDigitHead : List Char → Bool
  | [] => true
  | c :: _ => !c.isDigit

theorem takeWhile_digits_append {ds rest : List Char}
    (h1 : ds.all Char.isDigit = true) (h2 : noDigitHead rest = true) :
    (ds ++ rest).takeWhile Char.isDigit = ds ∧
      (ds ++ rest).dropWhile Char.isDigit = rest := by
  induction ds with
  | nil =>
    simp only [List.nil_append]
    cases rest with
    | nil => simp
    | cons c t =>
      simp only [noDigitHead, Bool.not_eq_true'] at h2
      simp [List.takeWhile, List.dropWhile, h2]
  | cons c t ih =>
    simp only [List.all_cons, Bool.and_eq_true] at h1
    have := ih h1.2
    simp [List.takeWhile, List.dropWhile, h1.1, this.1, this.2]

theorem parseNatPart_natDigits (n : Nat) {rest : List Char} (h : noDigitHead rest = true) :
    parseNatPart (natDigits n ++ rest) = some (n, rest) := by
  have hs := natDigitsAux_spec (n + 1) n (by omega)
  have htw := takeWhile_digits_append hs.2.1 h
  unfold parseNatPart natDigits
  simp only [natDigits] at htw
  rw [htw.1, htw.2]
  rw [if_neg (by simpa using hs.1)]
  rw [hs.2.2]

theorem natDigits_head_digit (n : Nat) :
    ∃ c t, natDigits n = c :: t ∧ c.isDigit = true := by
  have hs := natDigitsAux_spec (n + 1) n (by omega)
  obtain ⟨c, t, he⟩ : ∃ c t, natDigits n = c :: t := by
    cases hh : natDigits n with
    | nil => exact absurd (by simpa [natDigits] using hh) hs.1
    | cons c t => exact ⟨c, t, rfl⟩
  refine ⟨c, t, he, ?_⟩
  have hall := hs.2.1
  unfold natDigits at he
  rw [he] at hall
  simp only [List.all_cons, Bool.and_eq_true] at hall
  exact hall.1

theorem parseIntPart_minus (rest2 : List Char) :
    parseIntPart ('-' :: rest2) =
      match parseNatPart rest2 with
      | some (n, r) => some (-(n : Int), r)
      | none => none := by
  unfold parseIntPart
  simp

theorem parseIntPart_nonminus {c : Char} (hc : ¬c = '-') (rest2 : List Char) :
    parseIntPart (c :: rest2) =
      match parseNatPart (c :: rest2) with
      | some (n, r) => some ((n : Int), r)
      | none => none := by
  unfold parseIntPart
  simp [hc]

theorem parseIntPart_intChars (n : Int) {rest : List Char} (h : noDigitHead rest = true) :
    parseIntPart (intChars n ++ rest) = some (n, rest) := by
  unfold intChars
  by_cases hneg : n < 0
  · rw [if_pos hneg]
    simp only [List.cons_append]
    rw [parseIntPart_minus, parseNatPart_natDigits _ h]
    have hcast : (((-n).toNat : Nat) : Int) = -n := Int.toNat_of_nonneg (by omega)
    simp only [hcast]
    simp
  · rw [if_neg hneg]
    obtain ⟨c, t, he, hd⟩ := natDigits_head_digit n.toNat
    have hcm : ¬c = '-' := by
      intro hc
      rw [isDigit_iff_toNat] at hd
      have h45 : ('-' : Char).toNat = 45 := by decide
      rw [hc, h45] at hd
      omega
    rw [he]
    simp only [List.cons_append]
    rw [parseIntPart_nonminus hcm, ← List.cons_append, ← he, parseNatPart_natDigits _ h]
    show some ((n.toNat : Int), rest) = some (n, rest)
    rw [Int.toNat_of_nonneg (by omega)]

mutual

/-- Fuel needed by `parseVal` to parse `jsonEmit v` (one unit per
nesting step; string and number literals cost nothing because their
parsers are fuel-free at this level). -/
def jcost : JVal → Nat
  | .null => 1
  | .bool _ => 1
  | .num _ => 1
  | .str _ => 1
  | .arr l => jcostItems l + 1
  | .obj l => jcostFields l + 1

/-- Fuel needed by `parseItems` on `emitItems l`. -/
def jcostItems : List JVal → Nat
  | [] => 1
  | v :: t => max (jcost v) (jcostItems t) + 1

/-- Fuel needed by `parseFields` on `emitFields l`. -/
def jcostFields : List (String × JVal) → Nat
  | [] => 1
  | (_, v) :: t => max (jcost v) (jcostFields t) + 1

end

theorem jcost_pos (v : JVal) : 1 ≤ jcost v := by
  cases v <;> simp [jcost]

theorem jcostItems_pos (l : List JVal) : 1 ≤ jcostItems l := by
  cases l <;> simp [jcostItems]

theorem jcostFields_pos (l : List (String × JVal)) : 1 ≤ jcostFields l := by
  cases l with
  | nil => simp [jcostFields]
  | cons p t => cases p; simp [jcostFields]

theorem intChars_head (n : Int) :
    ∃ c t, intChars n = c :: t ∧ (c = '-' ∨ c.isDigit = true) := by
  unfold intChars
  by_cases hneg : n < 0
  · exact ⟨'-', _, by rw [if_pos hneg], Or.inl rfl⟩
  · obtain ⟨c, t, he, hd⟩ := natDigits_head_digit n.toNat
    exact ⟨c, t, by rw [if_neg hneg, he], Or.inr hd⟩

theorem numStart_ne {c : Char} (h : c = '-' ∨ c.isDigit = true) :
    ¬c = 'n' ∧ ¬c = 't' ∧ ¬c = 'f' ∧ ¬c = '"' ∧ ¬c = '[' ∧ ¬c = lbraceChar := by
  rcases h with h | h
  · subst h
    refine ⟨by decide, by decide, by decide, by decide, by decide, by decide⟩
  · refine ⟨?_, ?_, ?_, ?_, ?_, ?_⟩ <;> intro he <;> rw [he] at h <;> revert h <;> decide

/-- Every `JSON.stringify` output starts with one of the characters the
value dispatcher recognises. -/
theorem jsonEmit_head (v : JVal) :
    ∃ c t, jsonEmit v = c :: t ∧
      (c = 'n' ∨ c = 't' ∨ c = 'f' ∨ c = '"' ∨ c = '[' ∨ c = lbraceChar ∨
        c = '-' ∨ c.isDigit = true) := by
  cases v with
  | null => exact ⟨'n', _, rfl, Or.inl rfl⟩
  | bool b =>
    cases b with
    | false => exact ⟨'f', _, rfl, Or.inr (Or.inr (Or.inl rfl))⟩
    | true => exact ⟨'t', _, rfl, Or.inr (Or.inl rfl)⟩
  | num n =>
    obtain ⟨c, t, he, hd⟩ := intChars_head n
    refine ⟨c, t, by simp [jsonEmit, he], ?_⟩
    rcases hd with hd | hd
    · exact Or.inr (Or.inr (Or.inr (Or.inr (Or.inr (Or.inr (Or.inl hd))))))
    · exact Or.inr (Or.inr (Or.inr (Or.inr (Or.inr (Or.inr (Or.inr hd))))))
  | str s => exact ⟨'"', _, rfl, Or.inr (Or.inr (Or.inr (Or.inl rfl)))⟩
  | arr l => exact ⟨'[', _, rfl, Or.inr (Or.inr (Or.inr (Or.inr (Or.inl rfl))))⟩
  | obj l => exact ⟨lbraceChar, _, rfl, Or.inr (Or.inr (Or.inr (Or.inr (Or.inr (Or.inl rfl)))))⟩

theorem valStart_ne_closers {c : Char}
    (h : c = 'n' ∨ c = 't' ∨ c = 'f' ∨ c = '"' ∨ c = '[' ∨ c = lbraceChar ∨
      c = '-' ∨ c.isDigit = true) :
    ¬c = ']' ∧ ¬c = rbraceChar := by
  rcases h with h | h | h | h | h | h | h | h
  · subst h; exact ⟨by decide, by decide⟩
  · subst h; exact ⟨by decide, by decide⟩
  · subst h; exact ⟨by decide, by decide⟩
  · subst h; exact ⟨by decide, by decide⟩
  · subst h; exact ⟨by decide, by decide⟩
  · subst h; exact ⟨by decide, by decide⟩
  · subst h; exact ⟨by decide, by decide⟩
  · refine ⟨fun he => ?_, fun he => ?_⟩ <;> rw [he] at h <;> revert h <;> decide

theorem stringMk_data (s : String) : String.mk s.data = s := by
  cases s
  rfl

theorem noDigitHead_cons {c : Char} (h : c.isDigit = false) (rest : List Char) :
    noDigitHead (c :: rest) = true := by
  simp [noDigitHead, h]

theorem parse_emit_roundtrip :
    ∀ fuel : Nat,
      (∀ v rest, jcost v ≤ fuel → noDigitHead rest = true →
        parseVal fuel (jsonEmit v ++ rest) = some (v, rest)) ∧
      (∀ l rest, jcostItems l ≤ fuel →
        parseItems fuel (emitItems l ++ rest) = some (l, rest)) ∧
      (∀ l rest, jcostFields l ≤ fuel →
        parseFields fuel (emitFields l ++ rest) = some (l, rest)) := by
  intro fuel
  induction fuel with
  | zero =>
    refine ⟨fun v rest hc _ => absurd hc (by have := jcost_pos v; omega),
      fun l rest hc => absurd hc (by have := jcostItems_pos l; omega),
      fun l rest hc => absurd hc (by have := jcostFields_pos l; omega)⟩
  | succ f ih =>
    obtain ⟨ihV, ihI, ihF⟩ := ih
    refine ⟨?_, ?_, ?_⟩
    · intro v rest hc hnd
      cases v with
      | null => simp [jsonEmit, parseVal]
      | bool b =>
        cases b with
        | true => simp [jsonEmit, parseVal]
        | false => simp [jsonEmit, parseVal]
      | num n =>
        obtain ⟨c, t, he, hd⟩ := intChars_head n
        obtain ⟨hn, ht, hf2, hq, hb, hbr⟩ := numStart_ne hd
        have hemit : jsonEmit (JVal.num n) = c :: t := by simp [jsonEmit, he]
        rw [hemit, List.cons_append]
        simp only [parseVal]
        rw [if_neg hn, if_neg ht, if_neg hf2, if_neg hq, if_neg hb, if_neg hbr]
        rw [← List.cons_append, ← hemit]
        have : jsonEmit (JVal.num n) = intChars n := by simp [jsonEmit]
        rw [this, parseIntPart_intChars n hnd]
      | str s =>
        have harr : jsonEmit (JVal.str s) ++ rest = '"' :: (escSeq s.data ++ '"' :: rest) := by
          simp [jsonEmit]
        rw [harr]
        simp only [parseVal]
        rw [if_neg (by decide), if_neg (by decide), if_neg (by decide), if_pos trivial]
        have hlen : s.data.length < (escSeq s.data ++ '"' :: rest).length + 1 := by
          have := length_le_escSeq s.data
          simp only [List.length_append, List.length_cons]
          omega
        rw [parseStrBody_escSeq s.data _ rest hlen]
      | arr l =>
        have harr : jsonEmit (JVal.arr l) ++ rest = '[' :: (emitItems l ++ rest) := by
          simp [jsonEmit]
        rw [harr]
        simp only [parseVal]
        rw [if_neg (by decide), if_neg (by decide), if_neg (by decide), if_neg (by decide),
          if_pos trivial]
        have hcl : jcostItems l ≤ f := by
          rw [jcost] at hc
          omega
        rw [ihI l rest hcl]
      | obj l =>
        have harr : jsonEmit (JVal.obj l) ++ rest = lbraceChar :: (emitFields l ++ rest) := by
          simp [jsonEmit]
        rw [harr]
        simp only [parseVal]
        rw [if_neg (by decide), if_neg (by decide), if_neg (by decide), if_neg (by decide),
          if_neg (by decide), if_pos trivial]
        have hcl : jcostFields l ≤ f := by
          rw [jcost] at hc
          omega
        rw [ihF l rest hcl]
    · intro l rest hc
      cases l with
      | nil => simp [emitItems, parseItems]
      | cons v t =>
        obtain ⟨c, t0, he, hd⟩ := jsonEmit_head v
        obtain ⟨hne1, hne2⟩ := valStart_ne_closers hd
        cases t with
        | nil =>
          have hstep : emitItems [v] ++ rest = c :: (t0 ++ (']' :: rest)) := by
            simp [emitItems, he]
          rw [hstep]
          simp only [parseItems]
          rw [if_neg hne1]
          have hjoin : c :: (t0 ++ (']' :: rest)) = jsonEmit v ++ (']' :: rest) := by
            simp [he]
          rw [hjoin]
          rw [jcostItems] at hc
          have hmax := Nat.le_of_succ_le_succ hc
          have hcv : jcost v ≤ f := le_trans (le_max_left _ _) hmax
          rw [ihV v _ hcv (by rfl)]
          rfl
        | cons v2 t2 =>
          have hstep : emitItems (v :: v2 :: t2) ++ rest =
              c :: (t0 ++ (',' :: (emitItems (v2 :: t2) ++ rest))) := by
            simp [emitItems, he]
          rw [hstep]
          simp only [parseItems]
          rw [if_neg hne1]
          have hjoin : c :: (t0 ++ (',' :: (emitItems (v2 :: t2) ++ rest))) =
              jsonEmit v ++ (',' :: (emitItems (v2 :: t2) ++ rest)) := by
            simp [he]
          rw [hjoin]
          rw [jcostItems] at hc
          have hmax := Nat.le_of_succ_le_succ hc
          have hcv : jcost v ≤ f := le_trans (le_max_left _ _) hmax
          have hct : jcostItems (v2 :: t2) ≤ f := le_trans (le_max_right _ _) hmax
          rw [ihV v _ hcv (by rfl)]
          simp [ihI (v2 :: t2) rest hct]
    · intro l rest hc
      cases l with
      | nil => simp [emitFields, parseFields]
      | cons p t =>
        obtain ⟨k, v⟩ := p
        cases t with
        | nil =>
          have hstep : emitFields [(k, v)] ++ rest =
              '"' :: (escSeq k.data ++ '"' :: (':' :: (jsonEmit v ++ (rbraceChar :: rest)))) := by
            simp [emitFields]
          rw [hstep]
          simp only [parseFields]
          rw [if_neg (by decide), if_pos trivial]
          have hlen : k.data.length <
              (escSeq k.data ++ '"' :: (':' :: (jsonEmit v ++ (rbraceChar :: rest)))).length + 1 := by
            have := length_le_escSeq k.data
            simp only [List.length_append, List.length_cons]
            omega
          rw [parseStrBody_escSeq k.data _ _ hlen]
          rw [jcostFields] at hc
          have hmax := Nat.le_of_succ_le_succ hc
          have hcv : jcost v ≤ f := le_trans (le_max_left _ _) hmax
          simp [ihV v (rbraceChar :: rest) hcv (noDigitHead_cons (by decide) rest),
            stringMk_data, (show ¬rbraceChar = ',' by decide)]
        | cons p2 t2 =>
          have hstep : emitFields ((k, v) :: p2 :: t2) ++ rest =
              '"' :: (escSeq k.data ++ '"' ::
                (':' :: (jsonEmit v ++ (',' :: (emitFields (p2 :: t2) ++ rest))))) := by
            simp [emitFields]
          rw [hstep]
          simp only [parseFields]
          rw [if_neg (by decide), if_pos trivial]
          have hlen : k.data.length <
              (escSeq k.data ++ '"' ::
                (':' :: (jsonEmit v ++ (',' :: (emitFields (p2 :: t2) ++ rest))))).length + 1 := by
            have := length_le_escSeq k.data
            simp only [List.length_append, List.length_cons]
            omega
          rw [parseStrBody_escSeq k.data _ _ hlen]
          rw [jcostFields] at hc
          have hmax := Nat.le_of_succ_le_succ hc
          have hcv : jcost v ≤ f := le_trans (le_max_left _ _) hmax
          have hct : jcostFields (p2 :: t2) ≤ f := le_trans (le_max_right _ _) hmax
          simp [ihV v (',' :: (emitFields (p2 :: t2) ++ rest)) hcv
              (noDigitHead_cons (by decide) _),
            ihF (p2 :: t2) rest hct, stringMk_data, (show ¬rbraceChar = ',' by decide)]

theorem jsonEmit_length_pos (v : JVal) : 0 < (jsonEmit v).length := by
  obtain ⟨c, t, he, _⟩ := jsonEmit_head v
  simp [he]

theorem jcost_le_emit_all :
    ∀ n : Nat,
      (∀ v, jcost v ≤ n → jcost v ≤ (jsonEmit v).length) ∧
      (∀ l, jcostItems l ≤ n → jcostItems l ≤ (emitItems l).length) ∧
      (∀ l, jcostFields l ≤ n → jcostFields l ≤ (emitFields l).length) := by
  intro n
  induction n with
  | zero =>
    refine ⟨fun v hc => absurd hc (by have := jcost_pos v; omega),
      fun l hc => absurd hc (by have := jcostItems_pos l; omega),
      fun l hc => absurd hc (by have := jcostFields_pos l; omega)⟩
  | succ m ih =>
    obtain ⟨ihV, ihI, ihF⟩ := ih
    refine ⟨?_, ?_, ?_⟩
    · intro v hc
      cases v with
      | null => simp [jcost, jsonEmit]
      | bool b => cases b <;> simp [jcost, jsonEmit]
      | num k =>
        have := jsonEmit_length_pos (JVal.num k)
        rw [jcost]
        omega
      | str s =>
        have := jsonEmit_length_pos (JVal.str s)
        rw [jcost]
        omega
      | arr l =>
        rw [jcost] at hc ⊢
        have hl := ihI l (Nat.le_of_succ_le_succ hc)
        have : (jsonEmit (JVal.arr l)).length = (emitItems l).length + 1 := by
          simp [jsonEmit]
        omega
      | obj l =>
        rw [jcost] at hc ⊢
        have hl := ihF l (Nat.le_of_succ_le_succ hc)
        have : (jsonEmit (JVal.obj l)).length = (emitFields l).length + 1 := by
          simp [jsonEmit]
        omega
    · intro l hc
      cases l with
      | nil => simp [jcostItems, emitItems]
      | cons v t =>
        rw [jcostItems] at hc ⊢
        have hmax := Nat.le_of_succ_le_succ hc
        have h1 := ihV v (le_trans (le_max_left _ _) hmax)
        have h2 := ihI t (le_trans (le_max_right _ _) hmax)
        have hvpos := jsonEmit_length_pos v
        have hmle : max (jcost v) (jcostItems t) ≤
            (jsonEmit v).length + (emitItems t).length - 1 := by
          have hipos := jcostItems_pos t
          have : 0 < (emitItems t).length := by
            cases t with
            | nil => simp [emitItems]
            | cons v2 t2 =>
              cases t2 <;> simp [emitItems]
          refine Nat.max_le.mpr ⟨by omega, by omega⟩
        cases t with
        | nil =>
          have : (emitItems [v]).length = (jsonEmit v).length + 1 := by
            simp [emitItems]
          have hone : (emitItems ([] : List JVal)).length = 1 := by simp [emitItems]
          rw [this]
          rw [hone] at hmle
          omega
        | cons v2 t2 =>
          have : (emitItems (v :: v2 :: t2)).length =
              (jsonEmit v).length + 1 + (emitItems (v2 :: t2)).length := by
            simp [emitItems]
            omega
          omega
    · intro l hc
      cases l with
      | nil => simp [jcostFields, emitFields]
      | cons p t =>
        obtain ⟨k, v⟩ := p
        rw [jcostFields] at hc ⊢
        have hmax := Nat.le_of_succ_le_succ hc
        have h1 := ihV v (le_trans (le_max_left _ _) hmax)
        have h2 := ihF t (le_trans (le_max_right _ _) hmax)
        have hfpos : 0 < (emitFields t).length := by
          cases t with
          | nil => simp [emitFields]
          | cons p2 t2 =>
            obtain ⟨k2, v2⟩ := p2
            cases t2 <;> simp [emitFields]
        cases t with
        | nil =>
          have : (emitFields [(k, v)]).length =
              (escSeq k.data).length + (jsonEmit v).length + 4 := by
            simp [emitFields]
            omega
          have hone : (emitFields ([] : List (String × JVal))).length = 1 := by
            simp [emitFields]
          rw [hone] at h2
          rw [this]
          have := Nat.max_le.mpr
            (⟨by omega, by omega⟩ :
              jcost v ≤ (escSeq k.data).length + (jsonEmit v).length + 3 ∧
              jcostFields ([] : List (String × JVal)) ≤
                (escSeq k.data).length + (jsonEmit v).length + 3)
          omega
        | cons p2 t2 =>
          have : (emitFields ((k, v) :: p2 :: t2)).length =
              (escSeq k.data).length + (jsonEmit v).length + 4 +
                (emitFields (p2 :: t2)).length := by
            simp [emitFields]
            omega
          have := Nat.max_le.mpr
            (⟨by omega, by omega⟩ :
              jcost v ≤ (escSeq k.data).length + (jsonEmit v).length + 3 +
                (emitFields (p2 :: t2)).length ∧
              jcostFields (p2 :: t2) ≤ (escSeq k.data).length + (jsonEmit v).length + 3 +
                (emitFields (p2 :: t2)).length)
          omega

theorem jcost_le_emit (v : JVal) : jcost v ≤ (jsonEmit v).length :=
  (jcost_le_emit_all (jcost v)).1 v le_rfl

/-- Round trip of the store's serialization layer: `JSON.parse` applied
to `JSON.stringify(v)` recovers `v` exactly. -/
theorem jparse_jsonStringify (v : JVal) : jparse (jsonStringify v) = some v := by
  unfold jparse jsonStringify
  have hdata : (String.mk (jsonEmit v)).data = jsonEmit v := rfl
  rw [hdata]
  have hrc := (parse_emit_roundtrip ((jsonEmit v).length + 1)).1 v []
    (by have := jcost_le_emit v; omega) (by rfl)
  rw [List.append_nil] at hrc
  rw [hrc]

/-! ## JavaScript-side semantics used by the handlers -/

/-- JS truthiness of a JSON value (the `!data`, `!settings` and
`nutrition && ...` guards).  The falsy JSON values are `null`, `false`,
`0` and the empty string. -/
def truthy : JVal → Bool
  | .null => false
  | .bool b => b
  | .num n => !(n == 0)
  | .str s => !(s == "")
  | .arr _ => true
  | .obj _ => true

/-- JS `typeof v === 'object'` for a JSON value: objects, arrays and
`null` all have typeof `object`; booleans, numbers and strings do not. -/
def typeofIsObject : JVal → Bool
  | .null => true
  | .arr _ => true
  | .obj _ => true
  | _ => false

/-- A `POST /api/sync` input section is processed iff
`section && typeof section === 'object'` (server.js lines 466, 485,
504); an absent key is `undefined`, which is falsy. -/
def sectionGuard : Option JVal → Bool
  | none => false
  | some v => truthy v && typeofIsObject v

/-- JS `Object.entries`: object fields in insertion order; arrays yield
index keys `"0"`, `"1"`, ...; primitives have no own enumerable
properties. -/
def jsEntries : JVal → List (String × JVal)
  | .obj l => l
  | .arr l => l.enum.map fun p => (String.mk (natDigits p.1), p.2)
  | _ => []

/-- JS object assignment `o[k] = v`: overwrite in place when the key
exists (a JS object never holds a key twice), append otherwise. -/
def objAssign : List (String × JVal) → String → JVal → List (String × JVal)
  | [], k, v => [(k, v)]
  | p :: t, k, v => if p.1 == k then (k, v) :: t else p :: objAssign t k v

/-- JS object read `o[k]`. -/
def objGet (o : List (String × JVal)) (k : String) : Option JVal :=
  (o.find? (fun p => p.1 == k)).map Prod.snd

/-! ## The SQLite store -/

/-- A row of `nutrition_data` or `workout_data`; `data` is the TEXT
payload column.  (`id` and the timestamp columns carry no
claim-relevant information and are omitted.) -/
structure DocRow where
  user_id : Nat
  month_key : String
  data : String
deriving DecidableEq

/-- A row of `user_settings`. -/
structure SettingsRow where
  user_id : Nat
  settings : String
deriving DecidableEq

/-- A row of `users` (claim-relevant columns). -/
structure UserRow where
  id : Nat
  email : String
  password_hash : String
  name : String
  is_active : Bool
deriving DecidableEq

/-- A row of `activity_logs` (claim-relevant columns). -/
structure LogRow where
  user_id : Option Nat
  action : String
  details : String
deriving DecidableEq

/-- The persistent store.  `activity_logs` is kept newest first so the
`ORDER BY timestamp DESC` read is list order.  Activity-log appends by
the write handlers are not modelled: no checked claim depends on them,
and `logActivity` failures are swallowed (fire and forget). -/
structure DB where
  users : List UserRow
  nutrition_data : List DocRow
  workout_data : List DocRow
  user_settings : List SettingsRow
  activity_logs : List LogRow

/-- The two monthly-document kinds. -/
inductive Kind
  | nutrition
  | workout
deriving DecidableEq

/-- The table a kind is stored in. -/
def docTable (db : DB) : Kind → List DocRow
  | .nutrition => db.nutrition_data
  | .workout => db.workout_data

/-- `INSERT OR REPLACE INTO (nutrition|workout)_data ...`: SQLite
deletes every row conflicting on `UNIQUE(user_id, month_key)` and
appends the new row. -/
def upsertDoc (t : List DocRow) (u : Nat) (monthKey : String) (d : String) : List DocRow :=
  t.filter (fun r => !(r.user_id == u && r.month_key == monthKey)) ++ [⟨u, monthKey, d⟩]

/-- `INSERT OR REPLACE INTO user_settings ...` (`UNIQUE(user_id)`). -/
def upsertSettings (t : List SettingsRow) (u : Nat) (s : String) : List SettingsRow :=
  t.filter (fun r => !(r.user_id == u)) ++ [⟨u, s⟩]

/-- Code-point-wise string order, the TEXT ordering SQLite applies
with the default BINARY collation (code-point order coincides with
UTF-8 byte order). -/
def strLeAux : List Char → List Char → Bool
  | [], _ => true
  | _ :: _, [] => false
  | a :: as, b :: bs =>
    if a.toNat < b.toNat then true
    else if b.toNat < a.toNat then false
    else strLeAux as bs

/-- String comparison on the underlying character lists. -/
def strLe (a b : String) : Bool := strLeAux a.data b.data

/-- `ORDER BY month_key DESC`. -/
def monthKeyDesc (a b : DocRow) : Prop := strLe b.month_key a.month_key = true

instance : DecidableRel monthKeyDesc := fun a b => by
  unfold monthKeyDesc
  infer_instance

/-- The result order of the document SELECTs. -/
def sortRows (rows : List DocRow) : List DocRow := List.insertionSort monthKeyDesc rows

/-- The `rows.forEach` loop of the document read endpoints: parse each
row and store it under its month key; a row whose payload fails to
parse is skipped (the catch branch only logs). -/
def buildDocMap (rows : List DocRow) : List (String × JVal) :=
  rows.foldl
    (fun acc r =>
      match jparse r.data with
      | some v => objAssign acc r.month_key v
      | none => acc)
    []

/-! ## Read endpoints -/

/-- `GET /api/nutrition` and `GET /api/workouts` (and the document part
of `GET /api/sync`, which runs the same query and loop): the user's
rows, ordered by month key descending, folded into a JSON object. -/
def apiGetDocs (db : DB) (k : Kind) (u : Nat) : List (String × JVal) :=
  buildDocMap (sortRows ((docTable db k).filter (fun r => r.user_id == u)))

/-- The default settings object substituted when no row exists or the
stored payload does not parse. -/
def defaultSettings : JVal :=
  .obj [("height", .num 177), ("targetBodyFat", .num 15), ("currentBodyFat", .num 22)]

/-- The settings read, shared verbatim by `GET /api/settings` and the
settings query of `GET /api/sync`: `row ? JSON.parse(row.settings) :
default`, with the parse failure caught and mapped to the default. -/
def readSettings (db : DB) (u : Nat) : JVal :=
  match db.user_settings.find? (fun r => r.user_id == u) with
  | none => defaultSettings
  | some row =>
    match jparse row.settings with
    | some v => v
    | none => defaultSettings

/-- `GET /api/settings`. -/
def apiGetSettings (db : DB) (u : Nat) : JVal := readSettings db u

/-- The body of a successful `GET /api/sync` response (the `lastSync`
timestamp and user echo carry no claim-relevant information). -/
structure SyncGetResult where
  nutrition : List (String × JVal)
  workouts : List (String × JVal)
  settings : JVal

/-- `GET /api/sync`. -/
def apiGetSync (db : DB) (u : Nat) : SyncGetResult :=
  { nutrition := apiGetDocs db .nutrition u
    workouts := apiGetDocs db .workout u
    settings := readSettings db u }

/-! ## Per-document write endpoints -/

/-- Outcome of `POST /api/(nutrition|workouts)/:monthKey`. -/
inductive PutDocResult
  | missingData
  | saved
deriving DecidableEq

/-- `POST /api/nutrition/:monthKey` and `POST /api/workouts/:monthKey`:
reject with `MISSING_DATA` when `!data` (JS truthiness on the body's
`data` field, `none` = key absent), otherwise upsert
`JSON.stringify(data)`. -/
def apiPutDoc (db : DB) (k : Kind) (u : Nat) (monthKey : String) (bodyData : Option JVal) :
    DB × PutDocResult :=
  match bodyData with
  | none => (db, .missingData)
  | some v =>
    if !truthy v then (db, .missingData)
    else
      match k with
      | .nutrition =>
        ({ db with nutrition_data := upsertDoc db.nutrition_data u monthKey (jsonStringify v) },
          .saved)
      | .workout =>
        ({ db with workout_data := upsertDoc db.workout_data u monthKey (jsonStringify v) },
          .saved)

/-! ## Bulk write, `POST /api/sync`

The handler queues `BEGIN TRANSACTION`, every upsert, and `COMMIT`
synchronously: the two `forEach` loops and the final
`db.run('COMMIT')` all execute before any statement callback can fire
(node-sqlite3 runs callbacks on the event loop, and `db.serialize`
executes queued statements in order).  When an upsert fails, its
callback calls `handleTransactionError`, which issues
`db.run('ROLLBACK')` — but that statement is queued *behind* the
already-queued remaining upserts and the `COMMIT`.  With SQLite's
default `ON CONFLICT ABORT` resolution a failed statement aborts only
itself and leaves the explicit transaction open, so the later queued
statements and the `COMMIT` still run. -/

/-- One upsert issued inside the `POST /api/sync` transaction. -/
inductive SyncWrite
  | nut (monthKey : String) (payload : JVal)
  | wo (monthKey : String) (payload : JVal)
  | sett (payload : JVal)

/-- The request body of `POST /api/sync` (each section `none` when the
key is absent). -/
structure SyncBody where
  nutrition : Option JVal
  workouts : Option JVal
  settings : Option JVal

/-- The upserts the nutrition section contributes: its entries, in
order, when the guard passes; nothing otherwise. -/
def nutWritesSection (s : Option JVal) : List SyncWrite :=
  match s with
  | some v => if sectionGuard (some v) then (jsEntries v).map (fun p => .nut p.1 p.2) else []
  | none => []

/-- The upserts the workout section contributes. -/
def woWritesSection (s : Option JVal) : List SyncWrite :=
  match s with
  | some v => if sectionGuard (some v) then (jsEntries v).map (fun p => .wo p.1 p.2) else []
  | none => []

/-- The upsert the settings section contributes. -/
def settWritesSection (s : Option JVal) : List SyncWrite :=
  match s with
  | some v => if sectionGuard (some v) then [.sett v] else []
  | none => []

/-- The upserts `POST /api/sync` issues, in program order. -/
def issuedWrites (b : SyncBody) : List SyncWrite :=
  nutWritesSection b.nutrition ++ woWritesSection b.workouts ++ settWritesSection b.settings

/-- Effect of one upsert on the store. -/
def applySyncWrite (u : Nat) (db : DB) : SyncWrite → DB
  | .nut monthKey v =>
    { db with nutrition_data := upsertDoc db.nutrition_data u monthKey (jsonStringify v) }
  | .wo monthKey v =>
    { db with workout_data := upsertDoc db.workout_data u monthKey (jsonStringify v) }
  | .sett v =>
    { db with user_settings := upsertSettings db.user_settings u (jsonStringify v) }

/-- A statement in the queue the handler builds. -/
inductive SqlStmt
  | beginTxn
  | write (w : SyncWrite) (idx : Nat)
  | commitTxn
  | rollbackTxn

/-- Store plus the state of the explicit transaction. -/
structure TxnState where
  committed : DB
  pending : Option DB

/-- Execution of one queued statement.  A failing write (`fails idx`)
aborts only that statement (SQLite `ON CONFLICT ABORT`), leaving the
transaction open; `COMMIT` publishes the pending state; `ROLLBACK`
discards it; either without an open transaction is an error that
leaves the store unchanged. -/
def execStmt (u : Nat) (fails : Nat → Bool) (st : TxnState) : SqlStmt → TxnState
  | .beginTxn => { st with pending := some st.committed }
  | .write w idx =>
    if fails idx then st
    else
      match st.pending with
      | some p => { st with pending := some (applySyncWrite u p w) }
      | none => { st with committed := applySyncWrite u st.committed w }
  | .commitTxn =>
    match st.pending with
    | some p => { committed := p, pending := none }
    | none => st
  | .rollbackTxn => { st with pending := none }

/-- Whether any issued upsert fails under the failure oracle. -/
def anySyncFail (b : SyncBody) (fails : Nat → Bool) : Bool :=
  (List.range (issuedWrites b).length).any fails

/-- The statement queue `POST /api/sync` ends up executing: `BEGIN`,
the upserts, `COMMIT`, and — only when some upsert failed — the
`ROLLBACK` queued by the error callback, which lands after `COMMIT`. -/
def syncQueue (b : SyncBody) (fails : Nat → Bool) : List SqlStmt :=
  [.beginTxn] ++ ((issuedWrites b).enum.map fun p => .write p.2 p.1) ++ [.commitTxn]
    ++ (if anySyncFail b fails then [.rollbackTxn] else [])

/-- Outcome reported to the client by `POST /api/sync`: the 500 sent by
`handleError` on the first statement error, or the success payload. -/
inductive SyncSaveResult
  | ok (operations : Nat)
  | error500
deriving DecidableEq

/-- `POST /api/sync`. -/
def apiPostSync (db : DB) (u : Nat) (b : SyncBody) (fails : Nat → Bool) :
    DB × SyncSaveResult :=
  let final := (syncQueue b fails).foldl (execStmt u fails) ⟨db, none⟩
  (final.committed,
    if anySyncFail b fails then .error500 else .ok (issuedWrites b).length)

/-! ## Registration -/

/-- The request body of `POST /api/auth/register`. -/
structure RegisterReq where
  email : Option String
  password : Option String
  name : Option String

/-- Outcome of `POST /api/auth/register`. -/
inductive RegisterResult
  | missingFields
  | passwordTooShort
  | emailExists
  | created (id : Nat)
deriving DecidableEq

/-- JS truthiness of an optional string body field (`!email`,
`!password`, `name || ''`): absent and empty are falsy. -/
def strTruthy : Option String → Bool
  | none => false
  | some s => !(s == "")

/-- SQLite AUTOINCREMENT: one more than the largest id ever used
(no user row is ever deleted). -/
def nextUserId (users : List UserRow) : Nat :=
  (users.map UserRow.id).foldl max 0 + 1

/-- `POST /api/auth/register`, with the bcrypt hash injected as an
external collaborator.  The checks run in source order: missing
fields, password length, duplicate email (no `is_active` filter),
insert. -/
def apiRegister (hash : String → String) (db : DB) (req : RegisterReq) :
    DB × RegisterResult :=
  if !strTruthy req.email || !strTruthy req.password then (db, .missingFields)
  else
    let email := req.email.getD ""
    let password := req.password.getD ""
    if password.length < 6 then (db, .passwordTooShort)
    else if db.users.any (fun r => r.email == email) then (db, .emailExists)
    else
      let uid := nextUserId db.users
      let uname := if strTruthy req.name then req.name.getD "" else ""
      ({ db with users := db.users ++ [⟨uid, email, hash password, uname, true⟩] },
        .created uid)

/-! ## Activity-log read -/

/-- The characters JS `parseInt` skips as leading whitespace: the
ECMAScript WhiteSpace set (TAB, VT, FF, SP, NBSP, BOM and the Unicode
space separators U+1680, U+2000..U+200A, U+202F, U+205F, U+3000) plus
the LineTerminator set (LF, CR, LS, PS). -/
def jsWhitespace (c : Char) : Bool :=
  (9 ≤ c.toNat && c.toNat ≤ 13) || c.toNat == 32 || c.toNat == 160 ||
    c.toNat == 5760 || (8192 ≤ c.toNat && c.toNat ≤ 8202) ||
    c.toNat == 8232 || c.toNat == 8233 || c.toNat == 8239 ||
    c.toNat == 8287 || c.toNat == 12288 || c.toNat == 65279

/-- Whether `hexVal` accepts the character (a radix-16 digit of either
case, as `parseInt` accepts). -/
def isHexDigitChar (c : Char) : Bool := (hexVal c).isSome

/-- Parser for a maximal hexadecimal digit run (value only). -/
def parseHexPart (s : List Char) : Option Nat :=
  let ds := s.takeWhile isHexDigitChar
  if ds.isEmpty then none
  else some (ds.foldl (fun a c => a * 16 + (hexVal c).getD 0) 0)

/-- Magnitude parser of JS `parseInt` with no explicit radix: a `0x` or
`0X` prefix selects hexadecimal (NaN when no hex digit follows it),
otherwise a maximal decimal digit run (NaN when empty). -/
def parseIntMag (s : List Char) : Option Nat :=
  match s with
  | '0' :: x :: rest =>
    if x = 'x' ∨ x = 'X' then parseHexPart rest
    else (parseNatPart s).map Prod.fst
  | _ => (parseNatPart s).map Prod.fst

/-- JS `parseInt` on an optional query value (`none` = parameter
absent, so `parseInt(undefined)` = NaN = `none`): skip leading
whitespace, optional sign, then the magnitude — a `0x`/`0X`
hexadecimal form or a maximal decimal digit run; no digits is NaN.
Trailing garbage is ignored, as `parseInt` ignores it. -/
def jsParseInt (q : Option String) : Option Int :=
  match q with
  | none => none
  | some s =>
    let t := s.data.dropWhile jsWhitespace
    match t with
    | '-' :: rest => (parseIntMag rest).map (fun n => -(n : Int))
    | '+' :: rest => (parseIntMag rest).map (fun n => (n : Int))
    | _ => (parseIntMag t).map (fun n => (n : Int))

/-- `const limit = Math.min(parseInt(req.query.limit) || 50, 100)`:
`NaN || 50` and `0 || 50` both give 50. -/
def logsLimit (q : Option String) : Int :=
  let parsed : Int :=
    match jsParseInt q with
    | none => 50
    | some n => if n == 0 then 50 else n
  min parsed 100

/-- `GET /api/logs`: the user's rows (newest first) under `LIMIT ?`.
SQLite disables the limit when the bound is negative. -/
def apiGetLogs (db : DB) (u : Nat) (q : Option String) : List LogRow :=
  let rows := db.activity_logs.filter (fun r => r.user_id == some u)
  let lim := logsLimit q
  if lim < 0 then rows else rows.take lim.toNat

/-! ## Write sequences (for the one-row-per-key invariant) -/

/-- A document-writing API call. -/
inductive ApiCall
  | putDoc (u : Nat) (k : Kind) (monthKey : String) (bodyData : Option JVal)
  | putAll (u : Nat) (b : SyncBody)

/-- Effect of a call on the store when the storage engine reports no
error. -/
def applyCall (db : DB) : ApiCall → DB
  | .putDoc u k monthKey d => (apiPutDoc db k u monthKey d).1
  | .putAll u b => (apiPostSync db u b (fun _ => false)).1

/-- The (month key, payload) upserts a list of sync writes issues
against one kind's table. -/
def docWritesOf (k : Kind) (ws : List SyncWrite) : List (String × JVal) :=
  ws.filterMap fun w =>
    match k, w with
    | .nutrition, .nut monthKey v => some (monthKey, v)
    | .workout, .wo monthKey v => some (monthKey, v)
    | _, _ => none

/-- The (month key, payload) upserts one call issues against the given
user's table of the given kind. -/
def callDocWrites (u : Nat) (k : Kind) : ApiCall → List (String × JVal)
  | .putDoc u2 k2 monthKey d =>
    match d with
    | some v => if u2 == u && k2 == k && truthy v then [(monthKey, v)] else []
    | none => []
  | .putAll u2 b => if u2 == u then docWritesOf k (issuedWrites b) else []

/-- The payload of the last write a call sequence makes to
`(u, k, monthKey)`, if any. -/
def lastWrite (u : Nat) (k : Kind) (monthKey : String) (calls : List ApiCall) : Option JVal :=
  ((((calls.map (callDocWrites u k)).flatten).filter (fun p => p.1 == monthKey)).getLast?).map
    Prod.snd

/-! ## Infrastructure lemmas on the store model -/

theorem objGet_objAssign (o : List (String × JVal)) (k : String) (v : JVal) (k2 : String) :
    objGet (objAssign o k v) k2 = if k2 = k then some v else objGet o k2 := by
  induction o with
  | nil =>
    by_cases h : k2 = k
    · simp [objAssign, objGet, h]
    · have hb : (k == k2) = false := by
        simp only [beq_eq_false_iff_ne, ne_eq]
        exact fun he => h he.symm
      simp [objAssign, objGet, List.find?, h, hb]
  | cons p t ih =>
    by_cases hp : (p.1 == k) = true
    · have hpk : p.1 = k := by simpa using hp
      by_cases h : k2 = k
      · subst h
        simp [objAssign, hp, objGet, List.find?]
      · have hb : (k == k2) = false := by
          simp only [beq_eq_false_iff_ne, ne_eq]
          exact fun he => h he.symm
        have hpb : (p.1 == k2) = false := by rw [hpk]; exact hb
        simp [objAssign, hp, objGet, List.find?, hb, hpb, h]
    · have hpb : (p.1 == k) = false := by simpa using hp
      by_cases hk2 : (p.1 == k2) = true
      · have hne : ¬k2 = k := by
          intro he
          rw [he] at hk2
          exact hp hk2
        simp [objAssign, hpb, objGet, List.find?, hk2, hne]
      · have hk2b : (p.1 == k2) = false := by simpa using hk2
        simp only [objAssign, hpb, Bool.false_eq_true, if_false, objGet, List.find?, hk2b] at ih ⊢
        exact ih

theorem buildDocMap_append (xs : List DocRow) (r : DocRow) :
    buildDocMap (xs ++ [r]) =
      match jparse r.data with
      | some v => objAssign (buildDocMap xs) r.month_key v
      | none => buildDocMap xs := by
  unfold buildDocMap
  rw [List.foldl_append]
  rfl

theorem objGet_buildDocMap (rows : List DocRow) (mk2 : String) :
    objGet (buildDocMap rows) mk2 =
      (((rows.filter (fun r => r.month_key == mk2)).filterMap (fun r => jparse r.data)).getLast?) := by
  induction rows using List.reverseRecOn with
  | nil => simp [buildDocMap, objGet]
  | append_singleton xs r ih =>
    rw [buildDocMap_append]
    cases hparse : jparse r.data with
    | none =>
      by_cases hkey : (r.month_key == mk2) = true
      · simp only [List.filter_append, List.filter_cons, hkey, if_true, List.filter_nil,
          List.filterMap_append, List.filterMap_cons, hparse, List.filterMap_nil,
          List.append_nil]
        exact ih
      · have hkeyb : (r.month_key == mk2) = false := by simpa using hkey
        simp only [List.filter_append, List.filter_cons, hkeyb, Bool.false_eq_true, if_false,
          List.filter_nil, List.filterMap_nil, List.append_nil]
        exact ih
    | some v =>
      rw [objGet_objAssign]
      by_cases hmk : mk2 = r.month_key
      · rw [if_pos hmk]
        have hkey : (r.month_key == mk2) = true := by simp [hmk]
        simp [List.filter_append, List.filter_cons, hkey, hparse]
      · rw [if_neg hmk]
        have hkeyb : (r.month_key == mk2) = false := by
          simp only [beq_eq_false_iff_ne, ne_eq]
          exact fun he => hmk he.symm
        simp only [List.filter_append, List.filter_cons, hkeyb, Bool.false_eq_true, if_false,
          List.filter_nil, List.filterMap_nil, List.append_nil]
        exact ih

/-- The rows stored for one `(user, month-key)` document key. -/
def filterKey (t : List DocRow) (u : Nat) (mk2 : String) : List DocRow :=
  t.filter (fun r => r.user_id == u && r.month_key == mk2)

theorem filterKey_upsert (t : List DocRow) (u2 : Nat) (mk2 : String) (d : String)
    (u : Nat) (mk3 : String) :
    filterKey (upsertDoc t u2 mk2 d) u mk3 =
      if u2 = u ∧ mk2 = mk3 then [⟨u2, mk2, d⟩] else filterKey t u mk3 := by
  unfold filterKey upsertDoc
  rw [List.filter_append, List.filter_filter]
  by_cases h : u2 = u ∧ mk2 = mk3
  · obtain ⟨h1, h2⟩ := h
    subst h1
    subst h2
    rw [if_pos ⟨rfl, rfl⟩]
    have hleft : t.filter
        (fun a => (a.user_id == u2 && a.month_key == mk2) &&
          !(a.user_id == u2 && a.month_key == mk2)) = [] := by
      apply List.filter_eq_nil_iff.mpr
      intro a _
      cases a.user_id == u2 && a.month_key == mk2 <;> simp
    rw [hleft]
    simp
  · rw [if_neg h]
    have hrow : (((⟨u2, mk2, d⟩ : DocRow).user_id == u) &&
        ((⟨u2, mk2, d⟩ : DocRow).month_key == mk3)) = false := by
      rw [Bool.eq_false_iff]
      intro hb
      exact h (by simpa using hb)
    rw [List.filter_cons, hrow]
    simp only [Bool.false_eq_true, if_false, List.filter_nil, List.append_nil]
    apply List.filter_congr
    intro a _
    by_cases hq : (a.user_id == u && a.month_key == mk3) = true
    · have hpq : (a.user_id == u2 && a.month_key == mk2) = false := by
        rw [Bool.eq_false_iff]
        intro hb
        obtain ⟨hq1, hq2⟩ := by simpa using hq
        obtain ⟨hb1, hb2⟩ := by simpa using hb
        exact h ⟨hb1 ▸ hq1, hb2 ▸ hq2⟩
      rw [hq, hpq]
      simp
    · have hqb : (a.user_id == u && a.month_key == mk3) = false := by simpa using hq
      rw [hqb]
      simp

/-- Sequential document upserts for one user against one table. -/
def applyDocWrites (t : List DocRow) (u : Nat) (ws : List (String × JVal)) : List DocRow :=
  ws.foldl (fun acc p => upsertDoc acc u p.1 (jsonStringify p.2)) t

/-- The last payload a write list assigns to a month key. -/
def lastAssoc (ws : List (String × JVal)) (mk3 : String) : Option JVal :=
  ((ws.filter (fun p => p.1 == mk3)).getLast?).map Prod.snd

theorem applyDocWrites_append (t : List DocRow) (u : Nat) (ws : List (String × JVal))
    (q : String × JVal) :
    applyDocWrites t u (ws ++ [q]) =
      upsertDoc (applyDocWrites t u ws) u q.1 (jsonStringify q.2) := by
  unfold applyDocWrites
  rw [List.foldl_append]
  rfl

theorem filterKey_applyDocWrites (ws : List (String × JVal)) (t : List DocRow) (u2 u : Nat)
    (mk3 : String) :
    filterKey (applyDocWrites t u2 ws) u mk3 =
      if u2 = u then
        match lastAssoc ws mk3 with
        | some v => [⟨u2, mk3, jsonStringify v⟩]
        | none => filterKey t u mk3
      else filterKey t u mk3 := by
  induction ws using List.reverseRecOn with
  | nil =>
    by_cases hu : u2 = u <;> simp [applyDocWrites, lastAssoc, hu]
  | append_singleton ws q ih =>
    rw [applyDocWrites_append, filterKey_upsert]
    by_cases hq : q.1 = mk3
    · have hqb : (q.1 == mk3) = true := by simp [hq]
      have hlast : lastAssoc (ws ++ [q]) mk3 = some q.2 := by
        unfold lastAssoc
        rw [List.filter_append, List.filter_cons, hqb]
        simp
      rw [hlast]
      by_cases hu : u2 = u
      · rw [if_pos ⟨hu, hq⟩, if_pos hu, hq]
      · rw [if_neg (fun hc => hu hc.1), if_neg hu, ih, if_neg hu]
    · have hqb : (q.1 == mk3) = false := by simp [hq]
      have hlast : lastAssoc (ws ++ [q]) mk3 = lastAssoc ws mk3 := by
        unfold lastAssoc
        rw [List.filter_append, List.filter_cons, hqb]
        simp
      rw [hlast, if_neg (fun hc => hq hc.2), ih]

/-- The settings payloads a write list stores. -/
def settWritesOf (ws : List SyncWrite) : List JVal :=
  ws.filterMap fun w =>
    match w with
    | .sett v => some v
    | _ => none

theorem applySyncWrites_proj (u : Nat) :
    ∀ (ws : List SyncWrite) (db : DB),
      (ws.foldl (applySyncWrite u) db).nutrition_data =
          applyDocWrites db.nutrition_data u (docWritesOf .nutrition ws) ∧
        (ws.foldl (applySyncWrite u) db).workout_data =
          applyDocWrites db.workout_data u (docWritesOf .workout ws) ∧
        (ws.foldl (applySyncWrite u) db).user_settings =
          (settWritesOf ws).foldl (fun acc v => upsertSettings acc u (jsonStringify v))
            db.user_settings ∧
        (ws.foldl (applySyncWrite u) db).users = db.users ∧
        (ws.foldl (applySyncWrite u) db).activity_logs = db.activity_logs := by
  intro ws
  induction ws with
  | nil => intro db; simp [docWritesOf, settWritesOf, applyDocWrites]
  | cons w ws ih =>
    intro db
    have hstep := ih (applySyncWrite u db w)
    cases w with
    | nut monthKey v =>
      simpa [docWritesOf, settWritesOf, applyDocWrites, applySyncWrite] using hstep
    | wo monthKey v =>
      simpa [docWritesOf, settWritesOf, applyDocWrites, applySyncWrite] using hstep
    | sett v =>
      simpa [docWritesOf, settWritesOf, applyDocWrites, applySyncWrite] using hstep

theorem execWrites_nofail (u : Nat) (fails : Nat → Bool) (hnf : ∀ i, fails i = false) :
    ∀ (ws : List SyncWrite) (k : Nat) (d p : DB),
      ((ws.enumFrom k).map fun q => SqlStmt.write q.2 q.1).foldl (execStmt u fails) ⟨d, some p⟩
        = ⟨d, some (ws.foldl (applySyncWrite u) p)⟩ := by
  intro ws
  induction ws with
  | nil => intro k d p; simp [List.enumFrom]
  | cons w ws ih =>
    intro k d p
    simp only [List.enumFrom, List.map_cons, List.foldl_cons]
    rw [show execStmt u fails ⟨d, some p⟩ (.write w k) = ⟨d, some (applySyncWrite u p w)⟩ by
      simp [execStmt, hnf k]]
    rw [ih (k + 1) d (applySyncWrite u p w)]

theorem apiPostSync_nofail (db : DB) (u : Nat) (b : SyncBody) (fails : Nat → Bool)
    (hnf : ∀ i, fails i = false) :
    apiPostSync db u b fails =
      ((issuedWrites b).foldl (applySyncWrite u) db, .ok (issuedWrites b).length) := by
  have hany : anySyncFail b fails = false := by
    unfold anySyncFail
    simp [hnf]
  unfold apiPostSync syncQueue
  rw [hany]
  simp only [Bool.false_eq_true, if_false, List.append_nil]
  rw [List.foldl_append, List.foldl_append]
  rw [show List.foldl (execStmt u fails) ⟨db, none⟩ [SqlStmt.beginTxn]
      = ⟨db, some db⟩ by simp [execStmt]]
  rw [show (issuedWrites b).enum = (issuedWrites b).enumFrom 0 from rfl]
  rw [execWrites_nofail u fails hnf (issuedWrites b) 0 db db]
  simp [execStmt]

theorem filterKey_eq_filter_filter (t : List DocRow) (u : Nat) (mk3 : String) :
    filterKey t u mk3 =
      ((t.filter (fun r => r.user_id == u)).filter (fun r => r.month_key == mk3)) := by
  unfold filterKey
  rw [List.filter_filter]
  apply List.filter_congr
  intro a _
  exact (Bool.and_comm _ _).symm

theorem objGet_apiGetDocs_of_filterKey (db : DB) (k : Kind) (u : Nat) (mk3 : String)
    (r : DocRow) (h : filterKey (docTable db k) u mk3 = [r]) :
    objGet (apiGetDocs db k u) mk3 = jparse r.data := by
  unfold apiGetDocs
  rw [objGet_buildDocMap]
  have hperm :=
    (List.perm_insertionSort monthKeyDesc ((docTable db k).filter (fun r2 => r2.user_id == u))).filter
      (fun r2 => r2.month_key == mk3)
  rw [filterKey_eq_filter_filter] at h
  rw [h] at hperm
  have hsorted := List.perm_singleton.mp hperm
  rw [show sortRows ((docTable db k).filter (fun r2 => r2.user_id == u))
      = List.insertionSort monthKeyDesc ((docTable db k).filter (fun r2 => r2.user_id == u))
    from rfl]
  rw [hsorted]
  cases hp : jparse r.data <;> simp [hp]

theorem objGet_apiGetDocs_of_filterKey_nil (db : DB) (k : Kind) (u : Nat) (mk3 : String)
    (h : filterKey (docTable db k) u mk3 = []) :
    objGet (apiGetDocs db k u) mk3 = none := by
  unfold apiGetDocs
  rw [objGet_buildDocMap]
  have hperm :=
    (List.perm_insertionSort monthKeyDesc ((docTable db k).filter (fun r2 => r2.user_id == u))).filter
      (fun r2 => r2.month_key == mk3)
  rw [filterKey_eq_filter_filter] at h
  rw [h] at hperm
  have hsorted := List.Perm.eq_nil hperm
  rw [show sortRows ((docTable db k).filter (fun r2 => r2.user_id == u))
      = List.insertionSort monthKeyDesc ((docTable db k).filter (fun r2 => r2.user_id == u))
    from rfl]
  rw [hsorted]
  rfl

theorem filter_eq_singleton_of_nodup_keys :
    ∀ (X : List DocRow), ((X.map DocRow.month_key).Nodup) →
      ∀ r ∈ X, X.filter (fun a => a.month_key == r.month_key) = [r] := by
  intro X
  induction X with
  | nil => intro _ r hr; exact absurd hr (List.not_mem_nil r)
  | cons a t ih =>
    intro hnodup r hr
    rw [List.map_cons, List.nodup_cons] at hnodup
    obtain ⟨hak, hnd⟩ := hnodup
    rcases List.mem_cons.mp hr with hra | hrt
    · subst hra
      rw [List.filter_cons, if_pos (by simp)]
      have hnil : t.filter (fun a2 => a2.month_key == r.month_key) = [] := by
        apply List.filter_eq_nil_iff.mpr
        intro x hx hbeq
        exact hak (by
          have hx2 : x.month_key = r.month_key := by simpa using hbeq
          rw [← hx2]
          exact List.mem_map.mpr ⟨x, hx, rfl⟩)
      rw [hnil]
    · have hane : (a.month_key == r.month_key) = false := by
        rw [Bool.eq_false_iff]
        intro hbeq
        exact hak (by
          rw [show a.month_key = r.month_key by simpa using hbeq]
          exact List.mem_map.mpr ⟨r, hrt, rfl⟩)
      rw [List.filter_cons, hane]
      simp only [Bool.false_eq_true, if_false]
      exact ih hnd r hrt

theorem filterKey_singleton_of_nodup (t : List DocRow) (u : Nat)
    (hnodup : ((t.filter (fun r => r.user_id == u)).map DocRow.month_key).Nodup)
    (r : DocRow) (hr : r ∈ t.filter (fun r => r.user_id == u)) :
    filterKey t u r.month_key = [r] := by
  rw [filterKey_eq_filter_filter]
  exact filter_eq_singleton_of_nodup_keys _ hnodup r hr

/-! ## Claim theorems -/

/-- An empty store (fresh database). -/
def dbEmpty : DB := ⟨[], [], [], [], []⟩

/-- C6: for a user with no stored settings row, `GET /api/settings` and
the settings part of `GET /api/sync` both return exactly the object
with height 177, targetBodyFat 15 and currentBodyFat 22. -/
theorem c6_getSettings_default (db : DB) (u : Nat)
    (h : ∀ r ∈ db.user_settings, r.user_id ≠ u) :
    apiGetSettings db u =
        JVal.obj [("height", .num 177), ("targetBodyFat", .num 15), ("currentBodyFat", .num 22)] ∧
      (apiGetSync db u).settings =
        JVal.obj [("height", .num 177), ("targetBodyFat", .num 15), ("currentBodyFat", .num 22)] := by
  have hfind : db.user_settings.find? (fun r => r.user_id == u) = none := by
    rw [List.find?_eq_none]
    intro x hx
    simp [h x hx]
  constructor <;> simp [apiGetSettings, apiGetSync, readSettings, hfind, defaultSettings]

theorem c6_getSettings_default_witness :
    apiGetSettings dbEmpty 7 =
        JVal.obj [("height", .num 177), ("targetBodyFat", .num 15), ("currentBodyFat", .num 22)] ∧
      (apiGetSync dbEmpty 7).settings =
        JVal.obj [("height", .num 177), ("targetBodyFat", .num 15), ("currentBodyFat", .num 22)] :=
  c6_getSettings_default dbEmpty 7 (fun r hr => absurd hr (List.not_mem_nil r))

/-- C10: a settings row whose stored payload does not parse as JSON is
indistinguishable from an absent row — both `GET /api/settings` and the
settings part of `GET /api/sync` succeed with the default object. -/
theorem c10_corrupt_settings_default (db : DB) (u : Nat) (row : SettingsRow)
    (hfind : db.user_settings.find? (fun r => r.user_id == u) = some row)
    (hbad : jparse row.settings = none) :
    apiGetSettings db u =
        JVal.obj [("height", .num 177), ("targetBodyFat", .num 15), ("currentBodyFat", .num 22)] ∧
      (apiGetSync db u).settings =
        JVal.obj [("height", .num 177), ("targetBodyFat", .num 15), ("currentBodyFat", .num 22)] := by
  constructor <;> simp [apiGetSettings, apiGetSync, readSettings, hfind, hbad, defaultSettings]

/-- A store whose settings row for user 7 holds the unparseable payload
`"{"`. -/
def dbCorruptSettings : DB := ⟨[], [], [], [⟨7, "\x7b"⟩], []⟩

theorem c10_corrupt_settings_default_witness :
    apiGetSettings dbCorruptSettings 7 =
        JVal.obj [("height", .num 177), ("targetBodyFat", .num 15), ("currentBodyFat", .num 22)] ∧
      (apiGetSync dbCorruptSettings 7).settings =
        JVal.obj [("height", .num 177), ("targetBodyFat", .num 15), ("currentBodyFat", .num 22)] :=
  c10_corrupt_settings_default dbCorruptSettings 7 ⟨7, "\x7b"⟩ (by rfl) (by rfl)

/-- C9: a `data` body field that is present but a falsy JSON value
(`false`, `0`, `""`, `null`) is rejected with `MISSING_DATA` by both
per-document write endpoints, and the store is left unchanged. -/
theorem c9_falsy_data_rejected (db : DB) (k : Kind) (u : Nat) (monthKey : String) (v : JVal)
    (h : truthy v = false) :
    apiPutDoc db k u monthKey (some v) = (db, .missingData) := by
  simp only [apiPutDoc]
  rw [h]
  simp

theorem c9_falsy_data_rejected_witness :
    apiPutDoc dbEmpty Kind.nutrition 1 "2025-07" (some (JVal.num 0)) = (dbEmpty, .missingData) ∧
      apiPutDoc dbEmpty Kind.workout 1 "2025-07" (some (JVal.bool false)) =
        (dbEmpty, .missingData) :=
  ⟨c9_falsy_data_rejected dbEmpty Kind.nutrition 1 "2025-07" (JVal.num 0) (by rfl),
    c9_falsy_data_rejected dbEmpty Kind.workout 1 "2025-07" (JVal.bool false) (by rfl)⟩

/-- C2: a `putOne` accepted by the write endpoint (`data` truthy)
followed by the kind's read endpoint returns, under the written month
key, a payload deep-equal to what was written — the payload survives
the `JSON.stringify`/`JSON.parse` round trip through the TEXT column. -/
theorem c2_put_get_roundtrip (db : DB) (k : Kind) (u : Nat) (monthKey : String) (v : JVal)
    (ht : truthy v = true) :
    objGet (apiGetDocs (apiPutDoc db k u monthKey (some v)).1 k u) monthKey = some v := by
  cases k with
  | nutrition =>
    have hdb : (apiPutDoc db .nutrition u monthKey (some v)).1
        = { db with
            nutrition_data := upsertDoc db.nutrition_data u monthKey (jsonStringify v) } := by
      simp only [apiPutDoc]
      rw [ht]
      rfl
    rw [hdb]
    have hfk : filterKey
        (docTable
          { db with
            nutrition_data := upsertDoc db.nutrition_data u monthKey (jsonStringify v) }
          .nutrition) u monthKey = [⟨u, monthKey, jsonStringify v⟩] := by
      show filterKey (upsertDoc db.nutrition_data u monthKey (jsonStringify v)) u monthKey = _
      rw [filterKey_upsert, if_pos ⟨rfl, rfl⟩]
    rw [objGet_apiGetDocs_of_filterKey _ _ _ _ _ hfk]
    exact jparse_jsonStringify v
  | workout =>
    have hdb : (apiPutDoc db .workout u monthKey (some v)).1
        = { db with
            workout_data := upsertDoc db.workout_data u monthKey (jsonStringify v) } := by
      simp only [apiPutDoc]
      rw [ht]
      rfl
    rw [hdb]
    have hfk : filterKey
        (docTable
          { db with
            workout_data := upsertDoc db.workout_data u monthKey (jsonStringify v) }
          .workout) u monthKey = [⟨u, monthKey, jsonStringify v⟩] := by
      show filterKey (upsertDoc db.workout_data u monthKey (jsonStringify v)) u monthKey = _
      rw [filterKey_upsert, if_pos ⟨rfl, rfl⟩]
    rw [objGet_apiGetDocs_of_filterKey _ _ _ _ _ hfk]
    exact jparse_jsonStringify v

theorem c2_put_get_roundtrip_witness :
    objGet
      (apiGetDocs
        (apiPutDoc dbEmpty Kind.nutrition 5 "2025-07"
          (some (JVal.obj [("kcal", JVal.num 1850), ("note", JVal.str "cut")]))).1
        Kind.nutrition 5)
      "2025-07" = some (JVal.obj [("kcal", JVal.num 1850), ("note", JVal.str "cut")]) :=
  c2_put_get_roundtrip dbEmpty Kind.nutrition 5 "2025-07"
    (JVal.obj [("kcal", JVal.num 1850), ("note", JVal.str "cut")]) (by rfl)

/-- C5: the bulk read (`GET /api/sync`, and equally the per-kind read)
is lenient: under the one-row-per-key invariant guaranteed by the
UNIQUE constraint, every stored document of the user appears in the
result exactly when its payload parses, with exactly its parsed value;
an unparseable row is omitted and never fails the read (the read is a
total function of the store). -/
theorem c5_lenient_read (db : DB) (k : Kind) (u : Nat)
    (hnodup : (((docTable db k).filter (fun r => r.user_id == u)).map DocRow.month_key).Nodup) :
    (∀ r ∈ (docTable db k).filter (fun r => r.user_id == u),
      objGet
        (match k with
         | .nutrition => (apiGetSync db u).nutrition
         | .workout => (apiGetSync db u).workouts) r.month_key = jparse r.data) ∧
    (∀ mk3 : String,
      (∀ r ∈ (docTable db k).filter (fun r => r.user_id == u), r.month_key ≠ mk3) →
      objGet
        (match k with
         | .nutrition => (apiGetSync db u).nutrition
         | .workout => (apiGetSync db u).workouts) mk3 = none) := by
  constructor
  · intro r hr
    have hfk := filterKey_singleton_of_nodup (docTable db k) u hnodup r hr
    have hget := objGet_apiGetDocs_of_filterKey db k u r.month_key r hfk
    cases k <;> simpa [apiGetSync] using hget
  · intro mk3 hmk
    have hfk : filterKey (docTable db k) u mk3 = [] := by
      rw [filterKey_eq_filter_filter]
      apply List.filter_eq_nil_iff.mpr
      intro r hr hbeq
      exact hmk r hr (by simpa using hbeq)
    have hget := objGet_apiGetDocs_of_filterKey_nil db k u mk3 hfk
    cases k <;> simpa [apiGetSync] using hget

/-- A store holding one parseable and one corrupt nutrition document
for user 7. -/
def dbCorruptDoc : DB :=
  ⟨[], [⟨7, "2025-07", "\x7b\"kcal\":1850\x7d"⟩, ⟨7, "2025-08", "\x7b"⟩], [], [], []⟩

theorem c5_lenient_read_witness :
    objGet ((apiGetSync dbCorruptDoc 7).nutrition) "2025-07"
        = some (JVal.obj [("kcal", JVal.num 1850)]) ∧
      objGet ((apiGetSync dbCorruptDoc 7).nutrition) "2025-08" = none := by
  have h1 := (c5_lenient_read dbCorruptDoc .nutrition 7 (by decide)).1
    ⟨7, "2025-07", "\x7b\"kcal\":1850\x7d"⟩ (by decide)
  have h2 := (c5_lenient_read dbCorruptDoc .nutrition 7 (by decide)).1
    ⟨7, "2025-08", "\x7b"⟩ (by decide)
  exact ⟨h1.trans (by rfl), h2.trans (by rfl)⟩


theorem filterMap_of_eq_some {α : Type} {f : α → Option α} (hf : ∀ p, f p = some p)
    (l : List α) : l.filterMap f = l := by
  induction l with
  | nil => rfl
  | cons a t ih => rw [List.filterMap_cons, hf a, ih]

theorem filterMap_of_eq_none {α β : Type} {f : α → Option β} (hf : ∀ p, f p = none)
    (l : List α) : l.filterMap f = [] := by
  induction l with
  | nil => rfl
  | cons a t ih => rw [List.filterMap_cons, hf a, ih]

theorem docWritesOf_nutSection (s : Option JVal) :
    docWritesOf .nutrition (nutWritesSection s) =
      match s with
      | some v => if sectionGuard (some v) then jsEntries v else []
      | none => [] := by
  cases s with
  | none => rfl
  | some v =>
    by_cases hg : sectionGuard (some v) = true
    · simp only [nutWritesSection, if_pos hg, docWritesOf, List.filterMap_map]
      exact filterMap_of_eq_some (fun p => rfl) _
    · simp [nutWritesSection, docWritesOf, Bool.eq_false_iff.mpr hg]

theorem docWritesOf_woSection (s : Option JVal) :
    docWritesOf .workout (woWritesSection s) =
      match s with
      | some v => if sectionGuard (some v) then jsEntries v else []
      | none => [] := by
  cases s with
  | none => rfl
  | some v =>
    by_cases hg : sectionGuard (some v) = true
    · simp only [woWritesSection, if_pos hg, docWritesOf, List.filterMap_map]
      exact filterMap_of_eq_some (fun p => rfl) _
    · simp [woWritesSection, docWritesOf, Bool.eq_false_iff.mpr hg]

theorem docWritesOf_nutrition_wo (s : Option JVal) :
    docWritesOf .nutrition (woWritesSection s) = [] := by
  cases s with
  | none => rfl
  | some v =>
    by_cases hg : sectionGuard (some v) = true
    · simp only [woWritesSection, if_pos hg, docWritesOf, List.filterMap_map]
      exact filterMap_of_eq_none (fun p => rfl) _
    · simp [woWritesSection, docWritesOf, Bool.eq_false_iff.mpr hg]

theorem docWritesOf_workout_nut (s : Option JVal) :
    docWritesOf .workout (nutWritesSection s) = [] := by
  cases s with
  | none => rfl
  | some v =>
    by_cases hg : sectionGuard (some v) = true
    · simp only [nutWritesSection, if_pos hg, docWritesOf, List.filterMap_map]
      exact filterMap_of_eq_none (fun p => rfl) _
    · simp [nutWritesSection, docWritesOf, Bool.eq_false_iff.mpr hg]

theorem docWritesOf_settSection (k : Kind) (s : Option JVal) :
    docWritesOf k (settWritesSection s) = [] := by
  cases s with
  | none => cases k <;> rfl
  | some v =>
    by_cases hg : sectionGuard (some v) = true
    · cases k <;> simp [settWritesSection, docWritesOf, hg]
    · cases k <;> simp [settWritesSection, docWritesOf, Bool.eq_false_iff.mpr hg]

theorem settWritesOf_nutSection (s : Option JVal) :
    settWritesOf (nutWritesSection s) = [] := by
  cases s with
  | none => rfl
  | some v =>
    by_cases hg : sectionGuard (some v) = true
    · simp only [nutWritesSection, if_pos hg, settWritesOf, List.filterMap_map]
      exact filterMap_of_eq_none (fun p => rfl) _
    · simp [nutWritesSection, settWritesOf, Bool.eq_false_iff.mpr hg]

theorem settWritesOf_woSection (s : Option JVal) :
    settWritesOf (woWritesSection s) = [] := by
  cases s with
  | none => rfl
  | some v =>
    by_cases hg : sectionGuard (some v) = true
    · simp only [woWritesSection, if_pos hg, settWritesOf, List.filterMap_map]
      exact filterMap_of_eq_none (fun p => rfl) _
    · simp [woWritesSection, settWritesOf, Bool.eq_false_iff.mpr hg]

theorem settWritesOf_settSection (s : Option JVal) :
    settWritesOf (settWritesSection s) =
      match s with
      | some v => if sectionGuard (some v) then [v] else []
      | none => [] := by
  cases s with
  | none => rfl
  | some v =>
    by_cases hg : sectionGuard (some v) = true
    · simp [settWritesSection, settWritesOf, hg]
    · simp [settWritesSection, settWritesOf, Bool.eq_false_iff.mpr hg]

theorem docWritesOf_nutrition_issued (b : SyncBody) :
    docWritesOf .nutrition (issuedWrites b) =
      match b.nutrition with
      | some v => if sectionGuard (some v) then jsEntries v else []
      | none => [] := by
  unfold issuedWrites
  unfold docWritesOf
  rw [List.filterMap_append, List.filterMap_append]
  simp only [show ∀ l, l.filterMap
        (fun w =>
          match Kind.nutrition, w with
          | .nutrition, .nut monthKey v => some (monthKey, v)
          | .workout, .wo monthKey v => some (monthKey, v)
          | _, _ => none) = docWritesOf .nutrition l from fun _ => rfl]
  rw [docWritesOf_nutrition_wo, docWritesOf_settSection]
  rw [List.append_nil, List.append_nil]
  exact docWritesOf_nutSection b.nutrition

theorem docWritesOf_workout_issued (b : SyncBody) :
    docWritesOf .workout (issuedWrites b) =
      match b.workouts with
      | some v => if sectionGuard (some v) then jsEntries v else []
      | none => [] := by
  unfold issuedWrites
  unfold docWritesOf
  rw [List.filterMap_append, List.filterMap_append]
  simp only [show ∀ l, l.filterMap
        (fun w =>
          match Kind.workout, w with
          | .nutrition, .nut monthKey v => some (monthKey, v)
          | .workout, .wo monthKey v => some (monthKey, v)
          | _, _ => none) = docWritesOf .workout l from fun _ => rfl]
  rw [docWritesOf_workout_nut, docWritesOf_settSection]
  rw [List.nil_append, List.append_nil]
  exact docWritesOf_woSection b.workouts

theorem settWritesOf_issued (b : SyncBody) :
    settWritesOf (issuedWrites b) =
      match b.settings with
      | some v => if sectionGuard (some v) then [v] else []
      | none => [] := by
  unfold issuedWrites
  unfold settWritesOf
  rw [List.filterMap_append, List.filterMap_append]
  simp only [show ∀ l, l.filterMap
        (fun w =>
          match w with
          | SyncWrite.sett v => some v
          | _ => none) = settWritesOf l from fun _ => rfl]
  rw [settWritesOf_nutSection, settWritesOf_woSection]
  rw [List.nil_append, List.nil_append]
  exact settWritesOf_settSection b.settings

theorem filter_fst_singleton_of_nodup :
    ∀ (ws : List (String × JVal)), ((ws.map Prod.fst).Nodup) →
      ∀ p ∈ ws, ws.filter (fun q => q.1 == p.1) = [p] := by
  intro ws
  induction ws with
  | nil => intro _ p hp; exact absurd hp (List.not_mem_nil p)
  | cons a t ih =>
    intro hnodup p hp
    rw [List.map_cons, List.nodup_cons] at hnodup
    obtain ⟨hak, hnd⟩ := hnodup
    rcases List.mem_cons.mp hp with hpa | hpt
    · subst hpa
      rw [List.filter_cons, if_pos (by simp)]
      have hnil : t.filter (fun q => q.1 == p.1) = [] := by
        apply List.filter_eq_nil_iff.mpr
        intro x hx hbeq
        exact hak (by
          have hx2 : x.1 = p.1 := by simpa using hbeq
          rw [← hx2]
          exact List.mem_map.mpr ⟨x, hx, rfl⟩)
      rw [hnil]
    · have hane : (a.1 == p.1) = false := by
        rw [Bool.eq_false_iff]
        intro hbeq
        exact hak (by
          rw [show a.1 = p.1 by simpa using hbeq]
          exact List.mem_map.mpr ⟨p, hpt, rfl⟩)
      rw [List.filter_cons, hane]
      simp only [Bool.false_eq_true, if_false]
      exact ih hnd p hpt

theorem lastAssoc_of_nodup (ws : List (String × JVal)) (hnodup : (ws.map Prod.fst).Nodup)
    (p : String × JVal) (hp : p ∈ ws) : lastAssoc ws p.1 = some p.2 := by
  unfold lastAssoc
  rw [filter_fst_singleton_of_nodup ws hnodup p hp]
  rfl

/-- C4: under a failure-free storage engine, a `POST /api/sync` body
section that is absent or present-but-not-of-object-type is silently
ignored — the corresponding table is untouched — while the call still
succeeds and every entry of a well-formed section is stored and can be
read back.  (`sectionGuard s = false` covers exactly the absent and the
malformed-type cases.) -/
theorem c4_malformed_sections_ignored (db : DB) (u : Nat) (b : SyncBody) (fails : Nat → Bool)
    (hnf : ∀ i, fails i = false) :
    (sectionGuard b.nutrition = false →
      (apiPostSync db u b fails).1.nutrition_data = db.nutrition_data) ∧
    (sectionGuard b.workouts = false →
      (apiPostSync db u b fails).1.workout_data = db.workout_data) ∧
    (sectionGuard b.settings = false →
      (apiPostSync db u b fails).1.user_settings = db.user_settings) ∧
    (apiPostSync db u b fails).2 = .ok (issuedWrites b).length ∧
    (∀ nv, b.nutrition = some nv → sectionGuard (some nv) = true →
      ((jsEntries nv).map Prod.fst).Nodup →
      ∀ p ∈ jsEntries nv,
        objGet (apiGetDocs (apiPostSync db u b fails).1 .nutrition u) p.1 = some p.2) ∧
    (∀ wv, b.workouts = some wv → sectionGuard (some wv) = true →
      ((jsEntries wv).map Prod.fst).Nodup →
      ∀ p ∈ jsEntries wv,
        objGet (apiGetDocs (apiPostSync db u b fails).1 .workout u) p.1 = some p.2) := by
  rw [apiPostSync_nofail db u b fails hnf]
  obtain ⟨hnut, hwo, hsett, _, _⟩ := applySyncWrites_proj u (issuedWrites b) db
  refine ⟨?_, ?_, ?_, rfl, ?_, ?_⟩
  · intro hg
    rw [hnut, docWritesOf_nutrition_issued]
    cases hbn : b.nutrition with
    | none => rfl
    | some v =>
      rw [hbn] at hg
      show applyDocWrites db.nutrition_data u
          (if sectionGuard (some v) = true then jsEntries v else []) = db.nutrition_data
      rw [hg]
      rfl
  · intro hg
    rw [hwo, docWritesOf_workout_issued]
    cases hbw : b.workouts with
    | none => rfl
    | some v =>
      rw [hbw] at hg
      show applyDocWrites db.workout_data u
          (if sectionGuard (some v) = true then jsEntries v else []) = db.workout_data
      rw [hg]
      rfl
  · intro hg
    rw [hsett, settWritesOf_issued]
    cases hbs : b.settings with
    | none => rfl
    | some v =>
      rw [hbs] at hg
      show List.foldl (fun acc v => upsertSettings acc u (jsonStringify v)) db.user_settings
          (if sectionGuard (some v) = true then [v] else []) = db.user_settings
      rw [hg]
      rfl
  · intro nv hbn hg hnodup p hp
    have hfk : filterKey
        (docTable ((issuedWrites b).foldl (applySyncWrite u) db) .nutrition) u p.1
        = [⟨u, p.1, jsonStringify p.2⟩] := by
      show filterKey ((issuedWrites b).foldl (applySyncWrite u) db).nutrition_data u p.1 = _
      rw [hnut, docWritesOf_nutrition_issued, hbn]
      rw [show (match some nv with
          | some v => if sectionGuard (some v) = true then jsEntries v else []
          | none => ([] : List (String × JVal))) = jsEntries nv by
        show (if sectionGuard (some nv) = true then jsEntries nv else []) = jsEntries nv
        rw [hg]
        rfl]
      rw [filterKey_applyDocWrites, if_pos rfl, lastAssoc_of_nodup (jsEntries nv) hnodup p hp]
    rw [objGet_apiGetDocs_of_filterKey _ _ _ _ _ hfk]
    exact jparse_jsonStringify p.2
  · intro wv hbw hg hnodup p hp
    have hfk : filterKey
        (docTable ((issuedWrites b).foldl (applySyncWrite u) db) .workout) u p.1
        = [⟨u, p.1, jsonStringify p.2⟩] := by
      show filterKey ((issuedWrites b).foldl (applySyncWrite u) db).workout_data u p.1 = _
      rw [hwo, docWritesOf_workout_issued, hbw]
      rw [show (match some wv with
          | some v => if sectionGuard (some v) = true then jsEntries v else []
          | none => ([] : List (String × JVal))) = jsEntries wv by
        show (if sectionGuard (some wv) = true then jsEntries wv else []) = jsEntries wv
        rw [hg]
        rfl]
      rw [filterKey_applyDocWrites, if_pos rfl, lastAssoc_of_nodup (jsEntries wv) hnodup p hp]
    rw [objGet_apiGetDocs_of_filterKey _ _ _ _ _ hfk]
    exact jparse_jsonStringify p.2

/-- A sync body with a two-entry nutrition section and a malformed
(string-typed) workouts section. -/
def c4body : SyncBody :=
  ⟨some (.obj [("2025-07", .num 1), ("2025-08", .num 2)]), some (.str "oops"), none⟩

theorem c4_malformed_sections_ignored_witness :
    (apiPostSync dbEmpty 7 c4body (fun _ => false)).1.workout_data = dbEmpty.workout_data ∧
      (apiPostSync dbEmpty 7 c4body (fun _ => false)).1.user_settings = dbEmpty.user_settings ∧
      (apiPostSync dbEmpty 7 c4body (fun _ => false)).2 = .ok 2 ∧
      objGet (apiGetDocs (apiPostSync dbEmpty 7 c4body (fun _ => false)).1 .nutrition 7)
        "2025-07" = some (JVal.num 1) ∧
      objGet (apiGetDocs (apiPostSync dbEmpty 7 c4body (fun _ => false)).1 .nutrition 7)
        "2025-08" = some (JVal.num 2) := by
  have h := c4_malformed_sections_ignored dbEmpty 7 c4body (fun _ => false) (fun _ => rfl)
  refine ⟨h.2.1 (by rfl), h.2.2.1 (by rfl), h.2.2.2.1.trans (by rfl), ?_, ?_⟩
  · exact h.2.2.2.2.1 (JVal.obj [("2025-07", .num 1), ("2025-08", .num 2)]) rfl (by rfl)
      (by decide) ("2025-07", JVal.num 1) (List.Mem.head _)
  · exact h.2.2.2.2.1 (JVal.obj [("2025-07", .num 1), ("2025-08", .num 2)]) rfl (by rfl)
      (by decide) ("2025-08", JVal.num 2) (List.Mem.tail _ (List.Mem.head _))

theorem lastAssoc_single (monthKey : String) (v : JVal) (mk3 : String) :
    lastAssoc [(monthKey, v)] mk3 = if monthKey = mk3 then some v else none := by
  unfold lastAssoc
  by_cases h : monthKey = mk3
  · simp [h]
  · simp [List.filter_cons, h]

theorem lastAssoc_append (xs ys : List (String × JVal)) (mk3 : String) :
    lastAssoc (xs ++ ys) mk3 =
      match lastAssoc ys mk3 with
      | some v => some v
      | none => lastAssoc xs mk3 := by
  unfold lastAssoc
  cases hy : ys.filter (fun p => p.1 == mk3) with
  | nil =>
    rw [List.filter_append, hy, List.append_nil]
    rfl
  | cons a t =>
    rw [List.filter_append, hy]
    rw [List.getLast?_append_of_ne_nil _ (by simp : (a :: t) ≠ [])]
    cases hl : (a :: t).getLast? with
    | none => simp at hl
    | some q => rfl

theorem filterKey_applyCall (db : DB) (c : ApiCall) (u : Nat) (k : Kind) (mk3 : String) :
    filterKey (docTable (applyCall db c) k) u mk3 =
      match lastAssoc (callDocWrites u k c) mk3 with
      | some v => [⟨u, mk3, jsonStringify v⟩]
      | none => filterKey (docTable db k) u mk3 := by
  cases c with
  | putDoc u2 k2 monthKey d =>
    cases d with
    | none => rfl
    | some v =>
      by_cases ht : truthy v = true
      · cases k2 with
        | nutrition =>
          cases k with
          | nutrition =>
            have happ : docTable (applyCall db (.putDoc u2 .nutrition monthKey (some v)))
                  .nutrition
                = upsertDoc db.nutrition_data u2 monthKey (jsonStringify v) := by
              show (apiPutDoc db .nutrition u2 monthKey (some v)).1.nutrition_data = _
              simp only [apiPutDoc]
              rw [ht]
              rfl
            rw [happ, filterKey_upsert]
            rw [show callDocWrites u .nutrition (.putDoc u2 .nutrition monthKey (some v))
                = if u2 == u then [(monthKey, v)] else [] by
              simp [callDocWrites, ht]]
            by_cases hu : u2 = u
            · subst hu
              rw [if_pos (show (u2 == u2) = true by simp), lastAssoc_single]
              by_cases hmk : monthKey = mk3
              · rw [if_pos (⟨rfl, hmk⟩ : u2 = u2 ∧ monthKey = mk3), if_pos hmk]
                subst hmk
                rfl
              · rw [if_neg (fun hc : u2 = u2 ∧ monthKey = mk3 => hmk hc.2), if_neg hmk]
                rfl
            · rw [if_neg (show ¬(u2 == u) = true by simp [hu]),
                if_neg (fun hc : u2 = u ∧ monthKey = mk3 => hu hc.1)]
              rfl
          | workout =>
            have happ : docTable (applyCall db (.putDoc u2 .nutrition monthKey (some v)))
                  .workout = db.workout_data := by
              show (apiPutDoc db .nutrition u2 monthKey (some v)).1.workout_data = _
              simp only [apiPutDoc]
              rw [ht]
              rfl
            rw [happ]
            rw [show callDocWrites u .workout (.putDoc u2 .nutrition monthKey (some v)) = [] by
              simp [callDocWrites]]
            rfl
        | workout =>
          cases k with
          | nutrition =>
            have happ : docTable (applyCall db (.putDoc u2 .workout monthKey (some v)))
                  .nutrition = db.nutrition_data := by
              show (apiPutDoc db .workout u2 monthKey (some v)).1.nutrition_data = _
              simp only [apiPutDoc]
              rw [ht]
              rfl
            rw [happ]
            rw [show callDocWrites u .nutrition (.putDoc u2 .workout monthKey (some v)) = [] by
              simp [callDocWrites]]
            rfl
          | workout =>
            have happ : docTable (applyCall db (.putDoc u2 .workout monthKey (some v)))
                  .workout
                = upsertDoc db.workout_data u2 monthKey (jsonStringify v) := by
              show (apiPutDoc db .workout u2 monthKey (some v)).1.workout_data = _
              simp only [apiPutDoc]
              rw [ht]
              rfl
            rw [happ, filterKey_upsert]
            rw [show callDocWrites u .workout (.putDoc u2 .workout monthKey (some v))
                = if u2 == u then [(monthKey, v)] else [] by
              simp [callDocWrites, ht]]
            by_cases hu : u2 = u
            · subst hu
              rw [if_pos (show (u2 == u2) = true by simp), lastAssoc_single]
              by_cases hmk : monthKey = mk3
              · rw [if_pos (⟨rfl, hmk⟩ : u2 = u2 ∧ monthKey = mk3), if_pos hmk]
                subst hmk
                rfl
              · rw [if_neg (fun hc : u2 = u2 ∧ monthKey = mk3 => hmk hc.2), if_neg hmk]
                rfl
            · rw [if_neg (show ¬(u2 == u) = true by simp [hu]),
                if_neg (fun hc : u2 = u ∧ monthKey = mk3 => hu hc.1)]
              rfl
      · have ht2 : truthy v = false := by simpa using ht
        have happ : applyCall db (.putDoc u2 k2 monthKey (some v)) = db := by
          show (apiPutDoc db k2 u2 monthKey (some v)).1 = db
          simp only [apiPutDoc]
          rw [ht2]
          simp
        rw [happ]
        rw [show callDocWrites u k (.putDoc u2 k2 monthKey (some v)) = [] by
          simp [callDocWrites, ht2]]
        rfl
  | putAll u2 b =>
    have happ := apiPostSync_nofail db u2 b (fun _ => false) (fun _ => rfl)
    have hproj := applySyncWrites_proj u2 (issuedWrites b) db
    have htab : docTable (applyCall db (.putAll u2 b)) k
        = applyDocWrites (docTable db k) u2 (docWritesOf k (issuedWrites b)) := by
      show docTable (apiPostSync db u2 b (fun _ => false)).1 k = _
      rw [happ]
      cases k with
      | nutrition => exact hproj.1
      | workout => exact hproj.2.1
    rw [htab, filterKey_applyDocWrites]
    rw [show callDocWrites u k (.putAll u2 b)
        = if u2 == u then docWritesOf k (issuedWrites b) else [] from rfl]
    by_cases hu : u2 = u
    · subst hu
      rw [if_pos (show u2 = u2 from rfl), if_pos (show (u2 == u2) = true by simp)]
    · rw [if_neg hu, if_neg (show ¬(u2 == u) = true by simp [hu])]
      rfl

theorem filterKey_foldCalls (calls : List ApiCall) (db : DB) (u : Nat) (k : Kind)
    (mk3 : String) :
    filterKey (docTable (calls.foldl applyCall db) k) u mk3 =
      match lastAssoc ((calls.map (callDocWrites u k)).flatten) mk3 with
      | some v => [⟨u, mk3, jsonStringify v⟩]
      | none => filterKey (docTable db k) u mk3 := by
  induction calls using List.reverseRecOn with
  | nil => rfl
  | append_singleton cs c ih =>
    rw [List.foldl_append, List.foldl_cons, List.foldl_nil]
    rw [filterKey_applyCall]
    rw [List.map_append, List.map_cons, List.map_nil, List.flatten_append]
    rw [show ([callDocWrites u k c] : List (List (String × JVal))).flatten
        = callDocWrites u k c by simp]
    rw [lastAssoc_append]
    cases hc : lastAssoc (callDocWrites u k c) mk3 with
    | some v => rfl
    | none =>
      rw [ih]

/-- C3: after any sequence of document writes (per-document endpoint or
bulk sync, any mix of users and kinds), a key that was written at least
once is stored as exactly one row, holding the serialized payload of
the last write to it — writes replace whole documents and never
duplicate the row, and the read endpoint returns that last payload. -/
theorem c3_one_row_last_write_wins (db : DB) (calls : List ApiCall) (u : Nat) (k : Kind)
    (monthKey : String) (p : JVal)
    (hlast : lastWrite u k monthKey calls = some p) :
    filterKey (docTable (calls.foldl applyCall db) k) u monthKey
        = [⟨u, monthKey, jsonStringify p⟩] ∧
      objGet (apiGetDocs (calls.foldl applyCall db) k u) monthKey = some p := by
  have hfk : filterKey (docTable (calls.foldl applyCall db) k) u monthKey
      = [⟨u, monthKey, jsonStringify p⟩] := by
    rw [filterKey_foldCalls]
    have hl2 : lastAssoc ((calls.map (callDocWrites u k)).flatten) monthKey = some p := hlast
    rw [hl2]
  refine ⟨hfk, ?_⟩
  rw [objGet_apiGetDocs_of_filterKey _ _ _ _ _ hfk]
  exact jparse_jsonStringify p

/-- Two writes to the same key: one per-document write, then a bulk
sync overwriting it. -/
def c3calls : List ApiCall :=
  [.putDoc 7 .nutrition "2025-07" (some (.num 1)),
    .putAll 7 ⟨some (.obj [("2025-07", .num 2)]), none, none⟩]

theorem c3_one_row_last_write_wins_witness :
    filterKey (docTable (c3calls.foldl applyCall dbEmpty) .nutrition) 7 "2025-07"
        = [⟨7, "2025-07", jsonStringify (JVal.num 2)⟩] ∧
      objGet (apiGetDocs (c3calls.foldl applyCall dbEmpty) .nutrition 7) "2025-07"
        = some (JVal.num 2) :=
  c3_one_row_last_write_wins dbEmpty c3calls 7 .nutrition "2025-07" (JVal.num 2) (by rfl)

/-- The bulk-sync body submitting nutrition for months 2025-07 and
2025-08. -/
def c1body : SyncBody :=
  ⟨some (.obj [("2025-07", .num 1), ("2025-08", .num 2)]), none, none⟩

/-- Failure oracle: the storage engine rejects the second issued
upsert. -/
def c1fails : Nat → Bool := fun i => i == 1

/-- C1 (code bug): when the second of two upserts inside one
`POST /api/sync` fails, the handler reports a 500, yet the first upsert
is committed and visible afterward — the `ROLLBACK` issued by the error
callback is queued behind the already-queued `COMMIT`, and the failed
statement does not abort the open transaction, so the all-or-nothing
contract does not hold. -/
theorem c1_partial_commit_bug :
    (apiPostSync dbEmpty 7 c1body c1fails).2 = SyncSaveResult.error500 ∧
      filterKey (apiPostSync dbEmpty 7 c1body c1fails).1.nutrition_data 7 "2025-07"
        = [⟨7, "2025-07", jsonStringify (JVal.num 1)⟩] ∧
      objGet (apiGetDocs (apiPostSync dbEmpty 7 c1body c1fails).1 .nutrition 7) "2025-07"
        = some (JVal.num 1) ∧
      filterKey (apiPostSync dbEmpty 7 c1body c1fails).1.nutrition_data 7 "2025-08" = [] :=
  ⟨rfl, rfl, rfl, rfl⟩

/-- A store holding 101 activity-log rows for user 1. -/
def dbManyLogs : DB := ⟨[], [], [], [], List.replicate 101 ⟨some 1, "LOGIN", ""⟩⟩

/-- C7 counterexample: a `limit` parameter that parses to a negative
value disables SQLite's LIMIT, so the response can exceed 100 rows. -/
theorem c7_limit_counterexample :
    (apiGetLogs dbManyLogs 1 (some "-1")).length = 101 ∧
      ¬((apiGetLogs dbManyLogs 1 (some "-1")).length ≤ 100) := by
  constructor
  · rfl
  · decide

/-- C7 as amended: the row count is at most 50 when the parameter is
absent, unparseable, or zero; at most `min n 100` when it parses to a
positive `n`; and unbounded (every matching row) when it parses to a
negative value. -/
theorem c7_limit_amended (db : DB) (u : Nat) (q : Option String) :
    ((jsParseInt q = none ∨ jsParseInt q = some 0) → (apiGetLogs db u q).length ≤ 50) ∧
      (∀ n : Int, jsParseInt q = some n → 0 < n →
        (apiGetLogs db u q).length ≤ n.toNat ∧ (apiGetLogs db u q).length ≤ 100) ∧
      (∀ n : Int, jsParseInt q = some n → n < 0 →
        apiGetLogs db u q = db.activity_logs.filter (fun r => r.user_id == some u)) := by
  refine ⟨?_, ?_, ?_⟩
  · intro hq
    have hlim : logsLimit q = 50 := by
      unfold logsLimit
      rcases hq with hq | hq <;> rw [hq] <;> rfl
    unfold apiGetLogs
    rw [hlim, if_neg (by decide : ¬(50 : Int) < 0)]
    simp only [List.length_take]
    exact min_le_left _ _
  · intro n hq hn
    have hne : (n == 0) = false := by
      simp only [beq_eq_false_iff_ne, ne_eq]
      omega
    have hlim : logsLimit q = min n 100 := by
      unfold logsLimit
      rw [hq]
      simp [hne]
    unfold apiGetLogs
    rw [hlim, if_neg (by
      rw [not_lt]
      exact le_min (by omega) (by omega))]
    have hm1 : (min n (100 : Int)).toNat ≤ n.toNat := by
      have := min_le_left n (100 : Int)
      omega
    have hm2 : (min n (100 : Int)).toNat ≤ 100 := by
      have := min_le_right n (100 : Int)
      omega
    constructor
    · simp only [List.length_take]
      exact le_trans (min_le_left _ _) hm1
    · simp only [List.length_take]
      exact le_trans (min_le_left _ _) hm2
  · intro n hq hn
    have hne : (n == 0) = false := by
      simp only [beq_eq_false_iff_ne, ne_eq]
      omega
    have hlim : logsLimit q = min n 100 := by
      unfold logsLimit
      rw [hq]
      simp [hne]
    unfold apiGetLogs
    rw [hlim, if_pos (lt_of_le_of_lt (min_le_left _ _) hn)]

theorem c7_limit_amended_witness :
    (apiGetLogs dbManyLogs 1 (some "7")).length ≤ 7 ∧
      (apiGetLogs dbManyLogs 1 none).length ≤ 50 ∧
      apiGetLogs dbManyLogs 1 (some "\t-1")
        = dbManyLogs.activity_logs.filter (fun r => r.user_id == some 1) ∧
      (apiGetLogs dbManyLogs 1 (some "0xFF")).length ≤ 100 :=
  ⟨((c7_limit_amended dbManyLogs 1 (some "7")).2.1 7 (by rfl) (by decide)).1,
    (c7_limit_amended dbManyLogs 1 none).1 (Or.inl rfl),
    (c7_limit_amended dbManyLogs 1 (some "\t-1")).2.2 (-1) (by rfl) (by decide),
    ((c7_limit_amended dbManyLogs 1 (some "0xFF")).2.1 255 (by rfl) (by decide)).2⟩

/-- A store with one registered user. -/
def dbAlice : DB := ⟨[⟨1, "alice@example.com", "hash0", "", true⟩], [], [], [], []⟩

/-- A registration request reusing the stored email but with a
five-character password. -/
def c8shortReq : RegisterReq := ⟨some "alice@example.com", some "abc", none⟩

/-- C8 counterexample: a duplicate-email request with a short password
is rejected by the earlier password-length check, not with the
duplicate-email error — the claim's "fails with EMAIL_EXISTS" does not
hold for every duplicate-email request. -/
theorem c8_register_counterexample :
    (apiRegister id dbAlice c8shortReq).2 = RegisterResult.passwordTooShort ∧
      RegisterResult.passwordTooShort ≠ RegisterResult.emailExists ∧
      dbAlice.users.any (fun r => r.email == "alice@example.com") = true :=
  ⟨rfl, by decide, rfl⟩

/-- C8 as amended: a registration request that passes the
field-presence and password-length checks and whose email equals a
stored user's email fails with EMAIL_EXISTS and leaves the store
unchanged (no new row, password hash intact). -/
theorem c8_register_amended (hash : String → String) (db : DB) (req : RegisterReq)
    (hemail : strTruthy req.email = true) (hpw : strTruthy req.password = true)
    (hlen : ¬(req.password.getD "").length < 6)
    (hdup : db.users.any (fun r => r.email == req.email.getD "") = true) :
    apiRegister hash db req = (db, .emailExists) := by
  unfold apiRegister
  rw [hemail, hpw]
  simp only [Bool.not_true, Bool.or_self, Bool.false_eq_true, if_false]
  rw [if_neg hlen, if_pos hdup]

theorem c8_register_amended_witness :
    apiRegister id dbAlice ⟨some "alice@example.com", some "secret", none⟩
      = (dbAlice, .emailExists) :=
  c8_register_amended id dbAlice ⟨some "alice@example.com", some "secret", none⟩
    (by rfl) (by rfl) (by decide) (by rfl)
